import Mathlib

/-!
Shallow embedding of `evcouplings/utils/app.py` (`substitute_config`).

The configuration is modelled as an insertion-ordered association list of
string keys to Python-like values.  Python `int` is modelled as `Int`.
Python `float` is modelled by the canonical string produced by Python's
`str`/`repr` (shortest round-trip decimal).  `substitute_config` performs no
float arithmetic: it only parses decimal tokens, stores the value, and calls
`str` on it, so a float value is fully determined by its canonical repr
string.  On the fragment of decimal literals that round-trip (all inputs
appearing in the specification), this representation is a faithful isomorph
of IEEE-754 doubles under Python's parse/print functions.  `\d` in the region
regular expression and the whitespace stripped by `int()`/`float()` are
modelled at the ASCII level.
-/

set_option autoImplicit false

namespace EvApp

/-! ### Character and digit utilities -/

/-- ASCII whitespace stripped by Python `int()` / `float()` around a numeric
literal: space, tab, newline, carriage return, vertical tab, form feed. -/
def isPyWs (c : Char) : Bool :=
  c = ' ' || c = '\t' || c = '\n' || c = '\r' || c = Char.ofNat 11 || c = Char.ofNat 12

/-- Strip leading and trailing Python whitespace from a character list. -/
def stripWs (l : List Char) : List Char :=
  ((l.dropWhile isPyWs).reverse.dropWhile isPyWs).reverse

/-- Numeric value of an ASCII digit character. -/
def digitVal (c : Char) : Nat := c.toNat - 48

/-- Value of a big-endian ASCII digit string (as computed by Python `int` on
a digit run). -/
def digitsToNat (l : List Char) : Nat := l.foldl (fun a c => 10 * a + digitVal c) 0

/-- An optional leading sign, as accepted by Python `int()` / `float()`:
returns (isNegative, rest). -/
def readSign : List Char → Bool × List Char
  | '+' :: r => (false, r)
  | '-' :: r => (true, r)
  | l => (false, l)

/-- Apply a parsed sign to a natural number. -/
def signApply (neg : Bool) (n : Nat) : Int :=
  if neg then -(n : Int) else (n : Int)

/-- Validate a Python digit group `digit ( [_] digit )*` (single underscores
allowed only between digits, as in `int("1_000")`), returning the digits with
the underscores removed, or `none` if the group is malformed or empty. -/
def digitGroupAux : List Char → Option (List Char)
  | [] => some []
  | c :: rest =>
    if c.isDigit then (digitGroupAux rest).map (fun l => c :: l)
    else if c = '_' then
      match rest with
      | d :: r2 => if d.isDigit then (digitGroupAux r2).map (fun l => d :: l) else none
      | [] => none
    else none

/-- A whole character list as one Python digit group (must be nonempty and
must start with a digit: a leading underscore is rejected). -/
def digitGroup? (l : List Char) : Option (List Char) :=
  match l with
  | [] => none
  | c :: _ => if c.isDigit then digitGroupAux l else none

/-- Split at the first character satisfying `p`; the second component is
`none` when no such character occurs. -/
def splitAtFirst (p : Char → Bool) : List Char → List Char × Option (List Char)
  | [] => ([], none)
  | c :: r =>
    if p c then ([], some r)
    else
      let (a, b) := splitAtFirst p r
      (c :: a, b)

/-! ### Decimal digits of a natural number (fuel-based, kernel-computable) -/

/-- Little-endian base-10 digits, driven by explicit fuel so that the
definition reduces inside the kernel. -/
def natDigitsAux : Nat → Nat → List Nat
  | 0, _ => []
  | fuel + 1, n => if n = 0 then [] else n % 10 :: natDigitsAux fuel (n / 10)

/-- Little-endian base-10 digits of `n`. -/
def natDigitsL (n : Nat) : List Nat := natDigitsAux n n

/-- The ASCII character of a digit value. -/
def digitChar (d : Nat) : Char := Char.ofNat (48 + d)

/-- Big-endian decimal character string of a natural number, as produced by
Python `str` on a nonnegative `int`. -/
def natChars (n : Nat) : List Char :=
  if n = 0 then ['0'] else (natDigitsL n).reverse.map digitChar

/-- Characters of Python `str` on an `int` (optional minus sign, then the
decimal digits of the absolute value). -/
def intChars (n : Int) : List Char :=
  (if n < 0 then ['-'] else []) ++ natChars n.natAbs

/-! ### Python float model -/

/-- A Python `float`, identified by its canonical `repr`/`str` string (the
shortest round-trip decimal).  `substitute_config` never computes with float
values, so this determines the value completely on the round-trip fragment. -/
structure PyFloat where
  rep : String
deriving DecidableEq

/-- Remove factors of ten from the mantissa into the exponent
(`m * 10 ^ e` is kept constant); fuel-based so that it reduces. -/
def normPairAux : Nat → Int → Int → Int × Int
  | 0, m, e => (m, e)
  | fuel + 1, m, e =>
    if m ≠ 0 ∧ m % 10 = 0 then normPairAux fuel (m / 10) (e + 1) else (m, e)

/-- A run of ASCII zero characters. -/
def zeroChars (k : Nat) : List Char := List.replicate k '0'

/-- Characters of the exponent field of a Python float repr: at least two
digits, zero padded (`1e-05`). -/
def expChars (n : Nat) : List Char :=
  let l := natChars n
  if l.length < 2 then '0' :: l else l

/-- Render the body (absolute value) of a Python float repr from the
big-endian digits `ds` of a normalized mantissa and the decimal exponent `e`
(value `ds * 10 ^ e`).  Python uses fixed-point notation when the scientific
exponent lies in `[-4, 16)` and scientific notation otherwise. -/
def renderBody (ds : List Char) (e : Int) : List Char :=
  let sciExp : Int := (ds.length : Int) - 1 + e
  if -4 ≤ sciExp ∧ sciExp < 16 then
    if 0 ≤ e then ds ++ zeroChars e.toNat ++ ['.', '0']
    else
      let k := (-e).toNat
      if k < ds.length then ds.take (ds.length - k) ++ ['.'] ++ ds.drop (ds.length - k)
      else ['0', '.'] ++ zeroChars (k - ds.length) ++ ds
  else
    (match ds with
     | [] => ['0']
     | [d] => [d]
     | d :: rest => d :: '.' :: rest)
      ++ ['e'] ++ (if sciExp < 0 then ['-'] else ['+']) ++ expChars sciExp.natAbs

/-- Characters of the full Python float repr of the value `m * 10 ^ e`
with `m` already normalized (not divisible by ten unless zero). -/
def renderChars (m e : Int) : List Char :=
  if m = 0 then ['0', '.', '0']
  else (if m < 0 then ['-'] else []) ++ renderBody (natChars m.natAbs) e

/-- Canonical Python repr of the exact decimal value `m * 10 ^ e`. -/
def renderFloat (m e : Int) : String :=
  let p := normPairAux m.natAbs m e
  ⟨renderChars p.1 p.2⟩

/-- Parse the decimal grammar accepted by Python `float()` (whitespace,
optional sign, mantissa with optional point, optional exponent, single
underscores between digits), returning the exact value as a mantissa and a
decimal exponent.  `inf`/`nan` forms are omitted: they contain no `.` and so
never reach the float branch of the threshold parser. -/
def floatParts (s : String) : Option (Int × Int) :=
  let l := stripWs s.data
  let (neg, l1) := readSign l
  let (mant, expPart) := splitAtFirst (fun c => c = 'e' || c = 'E') l1
  let expVal? : Option Int :=
    match expPart with
    | none => some 0
    | some ep =>
      let (eneg, ep1) := readSign ep
      (digitGroup? ep1).map (fun eds => signApply eneg (digitsToNat eds))
  match expVal? with
  | none => none
  | some expVal =>
    let (ip, fp) := splitAtFirst (fun c => c = '.') mant
    match fp with
    | none => (digitGroup? ip).map (fun ids => (signApply neg (digitsToNat ids), expVal))
    | some fpl =>
      let ids? : Option (List Char) := if ip = [] then some [] else digitGroup? ip
      let fds? : Option (List Char) := if fpl = [] then some [] else digitGroup? fpl
      match ids?, fds? with
      | some ids, some fds =>
        if ids = [] ∧ fds = [] then none
        else some (signApply neg (digitsToNat (ids ++ fds)), expVal - (fds.length : Int))
      | _, _ => none

/-- Python `float()` on a string, as a canonical-repr float. -/
def pyFloatOfString (s : String) : Option PyFloat :=
  (floatParts s).map (fun p => ⟨renderFloat p.1 p.2⟩)

/-- Python `int()` on a string (base 10). -/
def pyIntOfString (s : String) : Option Int :=
  let l := stripWs s.data
  let (neg, l1) := readSign l
  (digitGroup? l1).map (fun ds => signApply neg (digitsToNat ds))

/-- A parsed Python number: an `int` or a `float`. -/
inductive PyNum where
  | pint (n : Int)
  | pfloat (f : PyFloat)
deriving DecidableEq

/-- Python `str` of a parsed number. -/
def PyNum.str : PyNum → String
  | .pint n => ⟨intChars n⟩
  | .pfloat f => f.rep

/-- One threshold token, following the source: `float(t) if "." in t else
int(t)`. -/
def pyNumOfToken (t : String) : Option PyNum :=
  if t.data.contains '.' then (pyFloatOfString t).map .pfloat
  else (pyIntOfString t).map .pint

/-! ### Comma splitting and space removal -/

/-- Remove every ASCII space character, exactly as `s.replace(" ", "")`. -/
def removeSpaces (s : String) : String := ⟨s.data.filter (fun c => c ≠ ' ')⟩

/-- Python `str.split(",")`: splits at every comma and keeps empty pieces
(so the result is always nonempty). -/
def splitComma : List Char → List (List Char)
  | [] => [[]]
  | c :: rest =>
    match splitComma rest with
    | [] => [[]]
    | g :: gs => if c = ',' then [] :: g :: gs else (c :: g) :: gs

/-- The token list of a threshold or stages string:
`s.replace(" ", "").split(",")`. -/
def commaTokens (s : String) : List String :=
  (splitComma (removeSpaces s).data).map (fun l => ⟨l⟩)

/-- Parse every threshold token; `none` if any token fails
(`except ValueError` in the source). -/
def parseThresholds (s : String) : Option (List PyNum) :=
  (commaTokens s).mapM pyNumOfToken

/-! ### The region regular expression -/

/-- Try to match `(\d+)-(\d+)` anchored at the start of the list: a maximal
nonempty ASCII digit run, a dash, a nonempty digit run (greedy, as the regex
engine behaves on this pattern). -/
def matchRegionAt (l : List Char) : Option (Nat × Nat) :=
  let d1 := l.takeWhile Char.isDigit
  let r1 := l.dropWhile Char.isDigit
  if d1 = [] then none
  else
    match r1 with
    | '-' :: r2 =>
      let d2 := r2.takeWhile Char.isDigit
      if d2 = [] then none else some (digitsToNat d1, digitsToNat d2)
    | _ => none

/-- Leftmost match of `(\d+)-(\d+)`, following `re.search`. -/
def searchRegionList : List Char → Option (Nat × Nat)
  | [] => none
  | c :: r =>
    match matchRegionAt (c :: r) with
    | some p => some p
    | none => searchRegionList r

/-- `re.search("(\d+)-(\d+)", s)` with the two groups converted by `int`. -/
def searchRegion (s : String) : Option (Nat × Nat) := searchRegionList s.data

/-! ### Substring occurrence (used to state diagnostics properties) -/

/-- Whether the first list is a prefix of the second. -/
def listStartsWith : List Char → List Char → Bool
  | [], _ => true
  | _ :: _, [] => false
  | a :: as, b :: bs => a = b && listStartsWith as bs

/-- Whether the first list occurs as a contiguous sublist of the second. -/
def occursInList : List Char → List Char → Bool
  | n, [] => n.isEmpty
  | n, c :: r => listStartsWith n (c :: r) || occursInList n r

/-- Whether `needle` occurs as a substring of `hay`. -/
def occursIn (needle hay : String) : Bool := occursInList needle.data hay.data

/-! ### Sanity checks on the parsers (definitional evaluation) -/

example : pyIntOfString "15" = some 15 := rfl
example : pyIntOfString " +1_5 " = some 15 := rfl
example : pyIntOfString "15\t" = some 15 := rfl
example : pyIntOfString "1\t5" = none := rfl
example : pyIntOfString "" = none := rfl
example : pyIntOfString "1e5" = none := rfl
example : pyFloatOfString "0.001" = some ⟨"0.001"⟩ := rfl
example : pyFloatOfString "00.5000" = some ⟨"0.5"⟩ := rfl
example : pyFloatOfString "1.10" = some ⟨"1.1"⟩ := rfl
example : pyFloatOfString "10." = some ⟨"10.0"⟩ := rfl
example : pyFloatOfString "1.e5" = some ⟨"100000.0"⟩ := rfl
example : pyFloatOfString "0.00001" = some ⟨"1e-05"⟩ := rfl
example : pyFloatOfString "-0.5" = some ⟨"-0.5"⟩ := rfl
example : pyFloatOfString "." = none := rfl
example : pyFloatOfString "1..2" = none := rfl
example : parseThresholds "1,0.001,10" = some [.pint 1, .pfloat ⟨"0.001"⟩, .pint 10] := rfl
example : parseThresholds "1 5" = some [.pint 15] := rfl
example : parseThresholds "0 . 5" = some [.pfloat ⟨"0.5"⟩] := rfl
example : parseThresholds "abc" = none := rfl
example : searchRegion "25-341" = some (25, 341) := rfl
example : searchRegion " 25-341 " = some (25, 341) := rfl
example : searchRegion "1-2-3" = some (1, 2) := rfl
example : searchRegion "12a3-4" = some (3, 4) := rfl
example : searchRegion "abc" = none := rfl
example : commaTokens "a b, c" = ["ab", "c"] := rfl

/-! ### Configuration values and dictionaries -/

/-- A Python value stored in the configuration: string, int, float, bool,
list, or nested dictionary (an insertion-ordered association list). -/
inductive Value where
  | vstr (s : String)
  | vint (n : Int)
  | vfloat (f : PyFloat)
  | vbool (b : Bool)
  | vlist (xs : List Value)
  | vdict (entries : List (String × Value))

/-- A Python dictionary with string keys. -/
abbrev Dict := List (String × Value)

/-- Dictionary lookup (`d[k]` / `d.get(k)`). -/
def dictGet? : Dict → String → Option Value
  | [], _ => none
  | (k, v) :: r, key => if k = key then some v else dictGet? r key

/-- Dictionary assignment `d[k] = v`: overwrites in place when the key
exists, appends otherwise (CPython insertion-order semantics). -/
def dictSet : Dict → String → Value → Dict
  | [], key, v => [(key, v)]
  | (k, w) :: r, key, v =>
    if k = key then (k, v) :: r else (k, w) :: dictSet r key v

/-- Python `key in d` on a dictionary. -/
def dictHasKey : Dict → String → Bool
  | [], _ => false
  | (k, _) :: r, key => k = key || dictHasKey r key

/-- Errors that the engine can raise: `InvalidParameterError` carrying its
message, plus the exceptions Python itself would raise when a required
section is missing (`KeyError`) or is not a mapping (`TypeError`). -/
inductive PyError where
  | invalidParameter (msg : String)
  | keyError (key : String)
  | typeError
deriving DecidableEq

/-- `config[outer][inner] = v`: requires `config[outer]` to exist and be a
dictionary, as the Python assignment does. -/
def setIn (c : Dict) (o i : String) (v : Value) : Except PyError Dict :=
  match dictGet? c o with
  | none => .error (.keyError o)
  | some (.vdict d) => .ok (dictSet c o (.vdict (dictSet d i v)))
  | some _ => .error .typeError

/-- Two-level read `config[outer][inner]`, used to state properties. -/
def getIn (c : Dict) (o i : String) : Option Value :=
  match dictGet? c o with
  | some (.vdict d) => dictGet? d i
  | _ => none

/-- The five sections that the base configuration must already contain as
mappings (data-model invariant of the specification). -/
def wf (c : Dict) : Bool :=
  (match dictGet? c "global" with | some (.vdict _) => true | _ => false) &&
  (match dictGet? c "align" with | some (.vdict _) => true | _ => false) &&
  (match dictGet? c "couplings" with | some (.vdict _) => true | _ => false) &&
  (match dictGet? c "environment" with | some (.vdict _) => true | _ => false) &&
  (match dictGet? c "databases" with | some (.vdict _) => true | _ => false)

/-! ### The override set -/

/-- The command-line override set: each field is `none` when the option was
not supplied (click's `default=None`).  The `config` positional argument (the
file path handed to the external reader) is outside the embedded engine.
Typed options carry the type click converts them to. -/
structure Kwargs where
  pfx : Option String := none
  protein : Option String := none
  seqfile : Option String := none
  alignment : Option String := none
  iterations : Option Int := none
  id : Option Int := none
  seqcov : Option Int := none
  colcov : Option Int := none
  theta : Option PyFloat := none
  plmiter : Option Int := none
  queue : Option String := none
  time : Option Int := none
  cores : Option Int := none
  memory : Option String := none
  region : Option String := none
  stages : Option String := none
  database : Option String := none
  bitscores : Option String := none
  evalues : Option String := none

/-- The CONFIG_MAP table paired with the override values: for each direct
parameter, its optional value (injected into `Value`) and the destination
`(section, field)`.  The source iterates `kwargs.items()`; since the
destinations are pairwise distinct the iteration order is irrelevant, and the
table order of CONFIG_MAP is used. -/
def mappedUpdates (kw : Kwargs) : List (Option Value × String × String) :=
  [ (kw.pfx.map .vstr, "global", "prefix"),
    (kw.protein.map .vstr, "global", "sequence_id"),
    (kw.seqfile.map .vstr, "global", "sequence_file"),
    (kw.alignment.map .vstr, "align", "input_alignment"),
    (kw.iterations.map .vint, "align", "iterations"),
    (kw.id.map .vint, "align", "seqid_filter"),
    (kw.seqcov.map .vint, "align", "minimum_sequence_coverage"),
    (kw.colcov.map .vint, "align", "minimum_column_coverage"),
    (kw.theta.map .vfloat, "couplings", "theta"),
    (kw.plmiter.map .vint, "couplings", "iterations"),
    (kw.queue.map .vstr, "environment", "queue"),
    (kw.time.map .vint, "environment", "time"),
    (kw.cores.map .vint, "environment", "cores"),
    (kw.memory.map .vstr, "environment", "memory") ]

/-- The destination paths of the CONFIG_MAP table. -/
def mapTargets : List (String × String) :=
  [("global", "prefix"), ("global", "sequence_id"), ("global", "sequence_file"),
   ("align", "input_alignment"), ("align", "iterations"), ("align", "seqid_filter"),
   ("align", "minimum_sequence_coverage"), ("align", "minimum_column_coverage"),
   ("couplings", "theta"), ("couplings", "iterations"),
   ("environment", "queue"), ("environment", "time"), ("environment", "cores"),
   ("environment", "memory")]

/-- One iteration of the substitution loop: skip an absent value, otherwise
write it to its destination. -/
def applyUpdate (c : Dict) (e : Option Value × String × String) : Except PyError Dict :=
  match e.1 with
  | none => .ok c
  | some v => setIn c e.2.1 e.2.2 v

/-! ### The engine steps, in source order -/

/-- Lines 65-68: straightforward CONFIG_MAP substitution. -/
def applyMapStep (c : Dict) (kw : Kwargs) : Except PyError Dict :=
  (mappedUpdates kw).foldlM applyUpdate c

/-- Lines 73-76: if an alignment is given, run the "existing" protocol. -/
def alignmentStep (c : Dict) (kw : Kwargs) : Except PyError Dict :=
  match kw.alignment with
  | none => .ok c
  | some _ => setIn c "align" "protocol" (.vstr "existing")

/-- The message of the region error.  In the source the format string
contains no placeholder, so `.format(region)` returns it unchanged and the
offending string is not included. -/
def regionMsg : String :=
  "Region string does not have format start-end (e.g. 5-123):"

/-- Body of the region branch: match the regex, write `global.region`, or
fail with `regionMsg`. -/
def regionApply (c : Dict) (r : String) : Except PyError Dict :=
  match searchRegion r with
  | some (a, b) =>
      setIn c "global" "region" (.vlist [.vint (a : Int), .vint (b : Int)])
  | none => .error (.invalidParameter regionMsg)

/-- Lines 79-91: region parsing via `re.search("(\d+)-(\d+)", region)`. -/
def regionStep (c : Dict) (kw : Kwargs) : Except PyError Dict :=
  match kw.region with
  | none => .ok c
  | some r => regionApply c r

/-- Lines 94-97: stages list. -/
def stagesStep (c : Dict) (kw : Kwargs) : Except PyError Dict :=
  match kw.stages with
  | none => .ok c
  | some s => .ok (dictSet c "stages" (.vlist ((commaTokens s).map .vstr)))

/-- Body of the database branch: `db in config["databases"]` decides between
a predefined database and a custom path. -/
def databaseApply (c : Dict) (db : String) : Except PyError Dict :=
  match dictGet? c "databases" with
  | some (.vdict d) =>
    if dictHasKey d db then setIn c "align" "database" (.vstr db)
    else do
      let c1 ← setIn c "align" "database" (.vstr "custom")
      setIn c1 "databases" "custom" (.vstr db)
  | some _ => .error .typeError
  | none => .error (.keyError "databases")

/-- Lines 100-108: sequence database resolution. -/
def databaseStep (c : Dict) (kw : Kwargs) : Except PyError Dict :=
  match kw.database with
  | none => .ok c
  | some db => databaseApply c db

/-- The mutual-exclusion error message (line 113); it contains neither
threshold string. -/
def mutualMsg : String :=
  "Can not specify bitscore and E-value threshold at the same time."

/-- The numeric error message (lines 133-134); `{}` formats the original
unsplit thresholds string. -/
def numericMsg (thresholds : String) : String :=
  "Bitscore/E-value threshold(s) must be numeric: " ++ thresholds

/-- A batch sub-job name: `("_b" if bitscore else "_e") + str(t)`. -/
def subName (bitscore : Bool) (t : PyNum) : String :=
  (if bitscore then "_b" else "_e") ++ t.str

/-- The `Value` stored for a threshold. -/
def PyNum.toValue : PyNum → Value
  | .pint n => .vint n
  | .pfloat f => .vfloat f

/-- A batch entry overlay `{align: {domain_threshold: t, sequence_threshold:
t}}`. -/
def mkOverlay (t : PyNum) : Value :=
  .vdict [("align", .vdict [("domain_threshold", t.toValue),
                            ("sequence_threshold", t.toValue)])]

/-- Lines 137-153: write `align.use_bitscores`, then either the single pair
of scalar thresholds or the batch fan-out, for an already parsed list. -/
def thresholdWrite (c : Dict) (bitscore : Bool) (xs : List PyNum) :
    Except PyError Dict := do
  let c1 ← setIn c "align" "use_bitscores" (.vbool bitscore)
  match xs with
  | [t] => do
    let c2 ← setIn c1 "align" "domain_threshold" t.toValue
    setIn c2 "align" "sequence_threshold" t.toValue
  | _ =>
    let cB := dictSet c1 "batch" (.vdict [])
    xs.foldlM (fun cc t => setIn cc "batch" (subName bitscore t) (mkOverlay t)) cB

/-- Lines 125-153: threshold parsing and single/batch expansion for one of
the two threshold strings. -/
def applyThresholds (c : Dict) (bitscore : Bool) (thresholds : String) :
    Except PyError Dict :=
  match parseThresholds thresholds with
  | none => .error (.invalidParameter (numericMsg thresholds))
  | some xs => thresholdWrite c bitscore xs

/-- Lines 111-153: mutual exclusion, then threshold handling. -/
def thresholdStep (c : Dict) (kw : Kwargs) : Except PyError Dict :=
  match kw.bitscores, kw.evalues with
  | some _, some _ => .error (.invalidParameter mutualMsg)
  | some s, none => applyThresholds c true s
  | none, some s => applyThresholds c false s
  | none, none => .ok c

/-- Which threshold string is in effect when exactly one is supplied
(lines 116-123): `true` for bitscores, `false` for E-values. -/
def thresholdSel (kw : Kwargs) : Option (Bool × String) :=
  match kw.bitscores, kw.evalues with
  | some s, none => some (true, s)
  | none, some s => some (false, s)
  | _, _ => none

/-- `substitute_config`, after the external configuration read: the fixed
sequence of substitution steps of lines 65-155. -/
def substitute_config (c : Dict) (kw : Kwargs) : Except PyError Dict := do
  let c1 ← applyMapStep c kw
  let c2 ← alignmentStep c1 kw
  let c3 ← regionStep c2 kw
  let c4 ← stagesStep c3 kw
  let c5 ← databaseStep c4 kw
  thresholdStep c5 kw

/-! ### Sanity checks on the engine -/

/-- A small base configuration used by witnesses and counterexamples. -/
def baseConfig : Dict :=
  [("global", .vdict [("prefix", .vstr "job"), ("sequence_id", .vstr "RASH_HUMAN")]),
   ("align", .vdict [("protocol", .vstr "standard"),
                     ("domain_threshold", .vint 30),
                     ("sequence_threshold", .vint 30)]),
   ("couplings", .vdict [("theta", .vfloat ⟨"0.8"⟩)]),
   ("environment", .vdict [("queue", .vstr "default")]),
   ("databases", .vdict [("uniref90", .vstr "/db/uniref90.fasta")]),
   ("stages", .vlist [.vstr "align", .vstr "couplings"])]

example : wf baseConfig = true := rfl

example : substitute_config baseConfig {} = .ok baseConfig := rfl

example :
    substitute_config baseConfig { bitscores := some "0.5" } =
      .ok [("global", .vdict [("prefix", .vstr "job"), ("sequence_id", .vstr "RASH_HUMAN")]),
           ("align", .vdict [("protocol", .vstr "standard"),
                             ("domain_threshold", .vfloat ⟨"0.5"⟩),
                             ("sequence_threshold", .vfloat ⟨"0.5"⟩),
                             ("use_bitscores", .vbool true)]),
           ("couplings", .vdict [("theta", .vfloat ⟨"0.8"⟩)]),
           ("environment", .vdict [("queue", .vstr "default")]),
           ("databases", .vdict [("uniref90", .vstr "/db/uniref90.fasta")]),
           ("stages", .vlist [.vstr "align", .vstr "couplings"])] := rfl

example :
    substitute_config baseConfig { evalues := some "1,0.001,10" } =
      .ok [("global", .vdict [("prefix", .vstr "job"), ("sequence_id", .vstr "RASH_HUMAN")]),
           ("align", .vdict [("protocol", .vstr "standard"),
                             ("domain_threshold", .vint 30),
                             ("sequence_threshold", .vint 30),
                             ("use_bitscores", .vbool false)]),
           ("couplings", .vdict [("theta", .vfloat ⟨"0.8"⟩)]),
           ("environment", .vdict [("queue", .vstr "default")]),
           ("databases", .vdict [("uniref90", .vstr "/db/uniref90.fasta")]),
           ("stages", .vlist [.vstr "align", .vstr "couplings"]),
           ("batch", .vdict [("_e1", mkOverlay (.pint 1)),
                             ("_e0.001", mkOverlay (.pfloat ⟨"0.001"⟩)),
                             ("_e10", mkOverlay (.pint 10))])] := rfl

example :
    substitute_config baseConfig { bitscores := some "1", evalues := some "2" } =
      .error (.invalidParameter mutualMsg) := rfl

example :
    substitute_config baseConfig { region := some "abc" } =
      .error (.invalidParameter regionMsg) := rfl

/-! ### Basic lemmas: Except bind -/

theorem exceptBind_ok {α β : Type} {a : α} {f : α → Except PyError β} :
    (Except.ok a >>= f) = f a := rfl

theorem exceptBind_err {α β : Type} {e : PyError} {f : α → Except PyError β} :
    ((Except.error e : Except PyError α) >>= f) = Except.error e := rfl

/-! ### Basic lemmas: dictionaries -/

theorem dictGet_dictSet_self (d : Dict) (k : String) (v : Value) :
    dictGet? (dictSet d k v) k = some v := by
  induction d with
  | nil => simp [dictSet, dictGet?]
  | cons p r ih =>
    obtain ⟨k', w⟩ := p
    by_cases h : k' = k
    · simp [dictSet, dictGet?, h]
    · simp [dictSet, dictGet?, h, ih]

theorem dictGet_dictSet_ne (d : Dict) (k k' : String) (v : Value) (h : k' ≠ k) :
    dictGet? (dictSet d k v) k' = dictGet? d k' := by
  have hk : k ≠ k' := Ne.symm h
  induction d with
  | nil => simp [dictSet, dictGet?, hk]
  | cons p r ih =>
    obtain ⟨k0, w⟩ := p
    by_cases h0 : k0 = k
    · subst h0
      simp [dictSet, dictGet?, hk]
    · simp only [dictSet, if_neg h0, dictGet?]
      by_cases h1 : k0 = k'
      · simp [h1]
      · simp [h1, ih]

theorem dictSet_dictSet_same (d : Dict) (k : String) (v w : Value) :
    dictSet (dictSet d k v) k w = dictSet d k w := by
  induction d with
  | nil => simp [dictSet]
  | cons p r ih =>
    obtain ⟨k0, u⟩ := p
    by_cases h0 : k0 = k
    · simp [dictSet, h0]
    · simp [dictSet, h0, ih]

theorem dictSet_get_self (d : Dict) (k : String) (v : Value)
    (h : dictGet? d k = some v) : dictSet d k v = d := by
  induction d with
  | nil => simp [dictGet?] at h
  | cons p r ih =>
    obtain ⟨k0, u⟩ := p
    by_cases h0 : k0 = k
    · subst h0
      simp [dictGet?] at h
      simp [dictSet, h]
    · simp [dictGet?, h0] at h
      simp [dictSet, h0, ih h]

theorem mem_dictSet (d : Dict) (k : String) (v : Value) (p : String × Value)
    (h : p ∈ dictSet d k v) : p = (k, v) ∨ p ∈ d := by
  induction d with
  | nil => simpa [dictSet] using h
  | cons q r ih =>
    obtain ⟨k0, u⟩ := q
    by_cases h0 : k0 = k
    · subst h0
      simp [dictSet] at h
      rcases h with h | h
      · exact .inl (by simp [h])
      · exact .inr (by simp [h])
    · simp [dictSet, h0] at h
      rcases h with h | h
      · exact .inr (by simp [h])
      · rcases ih h with h1 | h1
        · exact .inl h1
        · exact .inr (by simp [h1])

theorem mem_keys_dictSet (d : Dict) (k : String) (v : Value) (k' : String)
    (h : k' ∈ (dictSet d k v).map Prod.fst) : k' = k ∨ k' ∈ d.map Prod.fst := by
  rw [List.mem_map] at h
  obtain ⟨p, hp, hpk⟩ := h
  rcases mem_dictSet d k v p hp with h1 | h1
  · left; rw [← hpk, h1]
  · right; rw [← hpk]; exact List.mem_map_of_mem Prod.fst h1

theorem keys_dictSet_nodup (d : Dict) (k : String) (v : Value)
    (h : (d.map Prod.fst).Nodup) : ((dictSet d k v).map Prod.fst).Nodup := by
  induction d with
  | nil => simp [dictSet]
  | cons q r ih =>
    obtain ⟨k0, u⟩ := q
    simp only [List.map_cons, List.nodup_cons] at h
    by_cases h0 : k0 = k
    · subst h0
      simpa [dictSet] using h
    · simp only [dictSet, if_neg h0, List.map_cons, List.nodup_cons]
      refine ⟨?_, ih h.2⟩
      intro hk0
      rcases mem_keys_dictSet r k v k0 hk0 with h1 | h1
      · exact h0 h1
      · exact h.1 h1

/-! ### Basic lemmas: setIn and getIn -/

theorem setIn_ok_elim {c : Dict} {o i : String} {v : Value} {c' : Dict}
    (h : setIn c o i v = .ok c') :
    ∃ d, dictGet? c o = some (.vdict d) ∧
      c' = dictSet c o (.vdict (dictSet d i v)) := by
  unfold setIn at h
  cases hg : dictGet? c o with
  | none => rw [hg] at h; exact absurd h (by simp)
  | some w =>
    cases w with
    | vdict d =>
      rw [hg] at h
      simp at h
      exact ⟨d, rfl, h.symm⟩
    | vstr s => rw [hg] at h; exact absurd h (by simp)
    | vint n => rw [hg] at h; exact absurd h (by simp)
    | vfloat f => rw [hg] at h; exact absurd h (by simp)
    | vbool b => rw [hg] at h; exact absurd h (by simp)
    | vlist xs => rw [hg] at h; exact absurd h (by simp)

theorem setIn_ok_of_dict {c : Dict} {o : String} {d : Dict}
    (hg : dictGet? c o = some (.vdict d)) (i : String) (v : Value) :
    setIn c o i v = .ok (dictSet c o (.vdict (dictSet d i v))) := by
  unfold setIn
  rw [hg]

theorem setIn_top_ne {c : Dict} {o i : String} {v : Value} {c' : Dict}
    (h : setIn c o i v = .ok c') (k : String) (hk : k ≠ o) :
    dictGet? c' k = dictGet? c k := by
  obtain ⟨d, hg, rfl⟩ := setIn_ok_elim h
  exact dictGet_dictSet_ne _ _ _ _ hk

theorem getIn_setIn_self {c : Dict} {o i : String} {v : Value} {c' : Dict}
    (h : setIn c o i v = .ok c') : getIn c' o i = some v := by
  obtain ⟨d, hg, rfl⟩ := setIn_ok_elim h
  simp [getIn, dictGet_dictSet_self, dictGet_dictSet_self d i v]

theorem getIn_setIn_inner_ne {c : Dict} {o i : String} {v : Value} {c' : Dict}
    (h : setIn c o i v = .ok c') (i' : String) (hi : i' ≠ i) :
    getIn c' o i' = getIn c o i' := by
  obtain ⟨d, hg, rfl⟩ := setIn_ok_elim h
  simp [getIn, dictGet_dictSet_self, hg, dictGet_dictSet_ne d i i' v hi]

theorem getIn_setIn_outer_ne {c : Dict} {o i : String} {v : Value} {c' : Dict}
    (h : setIn c o i v = .ok c') (o' i' : String) (ho : o' ≠ o) :
    getIn c' o' i' = getIn c o' i' := by
  obtain ⟨d, hg, rfl⟩ := setIn_ok_elim h
  simp [getIn, dictGet_dictSet_ne c o o' _ ho]

theorem getIn_setIn_ne {c : Dict} {o i : String} {v : Value} {c' : Dict}
    (h : setIn c o i v = .ok c') (o' i' : String)
    (hne : ¬(o' = o ∧ i' = i)) :
    getIn c' o' i' = getIn c o' i' := by
  by_cases ho : o' = o
  · subst ho
    exact getIn_setIn_inner_ne h i' (fun hi => hne ⟨rfl, hi⟩)
  · exact getIn_setIn_outer_ne h o' i' ho

theorem getIn_dictSet_outer_ne (c : Dict) (k : String) (v : Value)
    (o i : String) (ho : o ≠ k) :
    getIn (dictSet c k v) o i = getIn c o i := by
  simp [getIn, dictGet_dictSet_ne c k o v ho]

/-! ### Basic lemmas: well-formedness -/

theorem wf_iff (c : Dict) : wf c = true ↔
    (∃ d, dictGet? c "global" = some (.vdict d)) ∧
    (∃ d, dictGet? c "align" = some (.vdict d)) ∧
    (∃ d, dictGet? c "couplings" = some (.vdict d)) ∧
    (∃ d, dictGet? c "environment" = some (.vdict d)) ∧
    (∃ d, dictGet? c "databases" = some (.vdict d)) := by
  unfold wf
  constructor
  · intro h
    simp only [Bool.and_eq_true] at h
    obtain ⟨⟨⟨⟨h1, h2⟩, h3⟩, h4⟩, h5⟩ := h
    refine ⟨?_, ?_, ?_, ?_, ?_⟩
    · cases hg : dictGet? c "global" with
      | none => rw [hg] at h1; simp at h1
      | some w => cases w <;> rw [hg] at h1 <;> simp at h1 ⊢
    · cases hg : dictGet? c "align" with
      | none => rw [hg] at h2; simp at h2
      | some w => cases w <;> rw [hg] at h2 <;> simp at h2 ⊢
    · cases hg : dictGet? c "couplings" with
      | none => rw [hg] at h3; simp at h3
      | some w => cases w <;> rw [hg] at h3 <;> simp at h3 ⊢
    · cases hg : dictGet? c "environment" with
      | none => rw [hg] at h4; simp at h4
      | some w => cases w <;> rw [hg] at h4 <;> simp at h4 ⊢
    · cases hg : dictGet? c "databases" with
      | none => rw [hg] at h5; simp at h5
      | some w => cases w <;> rw [hg] at h5 <;> simp at h5 ⊢
  · rintro ⟨⟨d1, h1⟩, ⟨d2, h2⟩, ⟨d3, h3⟩, ⟨d4, h4⟩, ⟨d5, h5⟩⟩
    rw [h1, h2, h3, h4, h5]
    rfl

/-- A section name among the five required mappings. -/
def sectionName (o : String) : Prop :=
  o = "global" ∨ o = "align" ∨ o = "couplings" ∨ o = "environment" ∨ o = "databases"

theorem wf_section_dict {c : Dict} {o : String} (hwf : wf c = true)
    (ho : sectionName o) : ∃ d, dictGet? c o = some (.vdict d) := by
  rw [wf_iff] at hwf
  obtain ⟨h1, h2, h3, h4, h5⟩ := hwf
  rcases ho with rfl | rfl | rfl | rfl | rfl <;> assumption

theorem isdict_dictSet_vdict {c : Dict} {s : String}
    (h : ∃ d, dictGet? c s = some (.vdict d)) (k : String) (d : Dict) :
    ∃ d', dictGet? (dictSet c k (.vdict d)) s = some (.vdict d') := by
  by_cases hk : s = k
  · subst hk
    exact ⟨d, dictGet_dictSet_self c s _⟩
  · obtain ⟨d0, h0⟩ := h
    exact ⟨d0, by rw [dictGet_dictSet_ne c k s _ hk]; exact h0⟩

theorem isdict_dictSet_other {c : Dict} {s : String}
    (h : ∃ d, dictGet? c s = some (.vdict d)) (k : String) (v : Value)
    (hk : s ≠ k) :
    ∃ d', dictGet? (dictSet c k v) s = some (.vdict d') := by
  obtain ⟨d0, h0⟩ := h
  exact ⟨d0, by rw [dictGet_dictSet_ne c k s v hk]; exact h0⟩

theorem wf_dictSet_vdict {c : Dict} (hwf : wf c = true) (k : String) (d : Dict) :
    wf (dictSet c k (.vdict d)) = true := by
  rw [wf_iff] at hwf ⊢
  obtain ⟨h1, h2, h3, h4, h5⟩ := hwf
  exact ⟨isdict_dictSet_vdict h1 k d, isdict_dictSet_vdict h2 k d,
         isdict_dictSet_vdict h3 k d, isdict_dictSet_vdict h4 k d,
         isdict_dictSet_vdict h5 k d⟩

theorem wf_dictSet_ne {c : Dict} (hwf : wf c = true) (k : String) (v : Value)
    (hk : k ≠ "global" ∧ k ≠ "align" ∧ k ≠ "couplings" ∧ k ≠ "environment" ∧
          k ≠ "databases") :
    wf (dictSet c k v) = true := by
  rw [wf_iff] at hwf ⊢
  obtain ⟨h1, h2, h3, h4, h5⟩ := hwf
  obtain ⟨k1, k2, k3, k4, k5⟩ := hk
  exact ⟨isdict_dictSet_other h1 k v (Ne.symm k1),
         isdict_dictSet_other h2 k v (Ne.symm k2),
         isdict_dictSet_other h3 k v (Ne.symm k3),
         isdict_dictSet_other h4 k v (Ne.symm k4),
         isdict_dictSet_other h5 k v (Ne.symm k5)⟩

theorem setIn_wf {c : Dict} {o i : String} {v : Value} {c' : Dict}
    (hwf : wf c = true) (h : setIn c o i v = .ok c') : wf c' = true := by
  obtain ⟨d, hg, rfl⟩ := setIn_ok_elim h
  exact wf_dictSet_vdict hwf o _

theorem setIn_ok_section {c : Dict} {o : String} (hwf : wf c = true)
    (ho : sectionName o) (i : String) (v : Value) :
    ∃ c', setIn c o i v = .ok c' ∧ wf c' = true := by
  obtain ⟨d, hg⟩ := wf_section_dict hwf ho
  refine ⟨_, setIn_ok_of_dict hg i v, ?_⟩
  exact wf_dictSet_vdict hwf o _

/-! ### Lemmas on the CONFIG_MAP substitution loop -/

theorem foldUp_frameIn (o i : String) :
    ∀ (L : List (Option Value × String × String)) (c c' : Dict),
      L.foldlM applyUpdate c = .ok c' →
      (∀ e ∈ L, e.1 = none ∨ ¬(e.2.1 = o ∧ e.2.2 = i)) →
      getIn c' o i = getIn c o i := by
  intro L
  induction L with
  | nil =>
    intro c c' h _
    simp only [List.foldlM_nil] at h
    cases h
    rfl
  | cons e L' ih =>
    intro c c' h hL
    obtain ⟨ov, o0, i0⟩ := e
    rw [List.foldlM_cons] at h
    cases ov with
    | none =>
      rw [show applyUpdate c (none, o0, i0) = .ok c from rfl, exceptBind_ok] at h
      exact ih c c' h (fun x hx => hL x (List.mem_cons_of_mem _ hx))
    | some v =>
      rw [show applyUpdate c (some v, o0, i0) = setIn c o0 i0 v from rfl] at h
      cases he : setIn c o0 i0 v with
      | error err => rw [he, exceptBind_err] at h; exact absurd h (by simp)
      | ok c1 =>
        rw [he, exceptBind_ok] at h
        have h2 := ih c1 c' h (fun x hx => hL x (List.mem_cons_of_mem _ hx))
        rw [h2]
        rcases hL _ (List.mem_cons_self _ L') with h3 | h3
        · exact absurd h3 (by simp)
        · exact getIn_setIn_ne he o i (fun ⟨a, b⟩ => h3 ⟨a.symm, b.symm⟩)

theorem foldUp_frameTop (k : String) :
    ∀ (L : List (Option Value × String × String)) (c c' : Dict),
      L.foldlM applyUpdate c = .ok c' →
      (∀ e ∈ L, e.1 = none ∨ e.2.1 ≠ k) →
      dictGet? c' k = dictGet? c k := by
  intro L
  induction L with
  | nil =>
    intro c c' h _
    simp only [List.foldlM_nil] at h
    cases h
    rfl
  | cons e L' ih =>
    intro c c' h hL
    obtain ⟨ov, o0, i0⟩ := e
    rw [List.foldlM_cons] at h
    cases ov with
    | none =>
      rw [show applyUpdate c (none, o0, i0) = .ok c from rfl, exceptBind_ok] at h
      exact ih c c' h (fun x hx => hL x (List.mem_cons_of_mem _ hx))
    | some v =>
      rw [show applyUpdate c (some v, o0, i0) = setIn c o0 i0 v from rfl] at h
      cases he : setIn c o0 i0 v with
      | error err => rw [he, exceptBind_err] at h; exact absurd h (by simp)
      | ok c1 =>
        rw [he, exceptBind_ok] at h
        have h2 := ih c1 c' h (fun x hx => hL x (List.mem_cons_of_mem _ hx))
        rw [h2]
        rcases hL _ (List.mem_cons_self _ L') with h3 | h3
        · exact absurd h3 (by simp)
        · exact setIn_top_ne he k (Ne.symm h3)

theorem foldUp_write (v : Value) (o i : String) :
    ∀ (L : List (Option Value × String × String)) (c c' : Dict),
      L.foldlM applyUpdate c = .ok c' →
      (L.map (fun e => (e.2.1, e.2.2))).Nodup →
      (some v, o, i) ∈ L →
      getIn c' o i = some v := by
  intro L
  induction L with
  | nil => intro c c' _ _ hm; simp at hm
  | cons e L' ih =>
    intro c c' h hnd hm
    obtain ⟨ov, o0, i0⟩ := e
    rw [List.foldlM_cons] at h
    simp only [List.map_cons, List.nodup_cons] at hnd
    rcases List.mem_cons.mp hm with he | he
    · cases he
      rw [show applyUpdate c (some v, o, i) = setIn c o i v from rfl] at h
      cases hs : setIn c o i v with
      | error err => rw [hs, exceptBind_err] at h; exact absurd h (by simp)
      | ok c1 =>
        rw [hs, exceptBind_ok] at h
        have hfr := foldUp_frameIn o i L' c1 c' h ?_
        · rw [hfr]
          exact getIn_setIn_self hs
        · intro x hx
          right
          intro ⟨a, b⟩
          apply hnd.1
          have : (x.2.1, x.2.2) ∈ L'.map (fun e => (e.2.1, e.2.2)) :=
            List.mem_map_of_mem _ hx
          rw [a, b] at this
          exact this
    · cases ov with
      | none =>
        rw [show applyUpdate c (none, o0, i0) = .ok c from rfl, exceptBind_ok] at h
        exact ih c c' h hnd.2 he
      | some w =>
        rw [show applyUpdate c (some w, o0, i0) = setIn c o0 i0 w from rfl] at h
        cases hs : setIn c o0 i0 w with
        | error err => rw [hs, exceptBind_err] at h; exact absurd h (by simp)
        | ok c1 =>
          rw [hs, exceptBind_ok] at h
          exact ih c1 c' h hnd.2 he

theorem foldUp_wf :
    ∀ (L : List (Option Value × String × String)) (c : Dict),
      wf c = true →
      (∀ e ∈ L, sectionName e.2.1) →
      ∃ c', L.foldlM applyUpdate c = .ok c' ∧ wf c' = true := by
  intro L
  induction L with
  | nil => intro c hwf _; exact ⟨c, rfl, hwf⟩
  | cons e L' ih =>
    intro c hwf hL
    obtain ⟨ov, o0, i0⟩ := e
    cases ov with
    | none =>
      obtain ⟨c', h1, h2⟩ := ih c hwf (fun x hx => hL x (List.mem_cons_of_mem _ hx))
      exact ⟨c', by rw [List.foldlM_cons,
        show applyUpdate c (none, o0, i0) = .ok c from rfl, exceptBind_ok]; exact h1, h2⟩
    | some v =>
      obtain ⟨c1, hs, hwf1⟩ :=
        setIn_ok_section hwf (hL _ (List.mem_cons_self _ L')) i0 v
      obtain ⟨c', h1, h2⟩ := ih c1 hwf1 (fun x hx => hL x (List.mem_cons_of_mem _ hx))
      exact ⟨c', by rw [List.foldlM_cons,
        show applyUpdate c (some v, o0, i0) = setIn c o0 i0 v from rfl, hs,
        exceptBind_ok]; exact h1, h2⟩

theorem mappedUpdates_sections (kw : Kwargs) :
    ∀ e ∈ mappedUpdates kw, sectionName e.2.1 := by
  intro e he
  simp only [mappedUpdates, List.mem_cons, List.not_mem_nil, or_false] at he
  rcases he with rfl | rfl | rfl | rfl | rfl | rfl | rfl | rfl | rfl | rfl | rfl
    | rfl | rfl | rfl <;> simp [sectionName]

theorem mappedUpdates_targets (kw : Kwargs) :
    (mappedUpdates kw).map (fun e => (e.2.1, e.2.2)) = mapTargets := rfl

theorem mapTargets_nodup : mapTargets.Nodup := by decide

theorem applyMapStep_wf {c : Dict} (kw : Kwargs) (hwf : wf c = true) :
    ∃ c', applyMapStep c kw = .ok c' ∧ wf c' = true :=
  foldUp_wf (mappedUpdates kw) c hwf (mappedUpdates_sections kw)

theorem applyMapStep_frameIn {c c' : Dict} {kw : Kwargs}
    (h : applyMapStep c kw = .ok c') (o i : String)
    (hni : (o, i) ∉ mapTargets) : getIn c' o i = getIn c o i := by
  apply foldUp_frameIn o i _ c c' h
  intro e he
  right
  intro ⟨h1, h2⟩
  apply hni
  have hm : (e.2.1, e.2.2) ∈ (mappedUpdates kw).map (fun e => (e.2.1, e.2.2)) :=
    List.mem_map_of_mem _ he
  rw [mappedUpdates_targets kw] at hm
  rw [h1, h2] at hm
  exact hm

theorem applyMapStep_frameTop {c c' : Dict} {kw : Kwargs}
    (h : applyMapStep c kw = .ok c') (k : String)
    (hk : k ∉ mapTargets.map Prod.fst) : dictGet? c' k = dictGet? c k := by
  apply foldUp_frameTop k _ c c' h
  intro e he
  right
  intro h1
  apply hk
  have hm : (e.2.1, e.2.2) ∈ (mappedUpdates kw).map (fun e => (e.2.1, e.2.2)) :=
    List.mem_map_of_mem _ he
  rw [mappedUpdates_targets kw] at hm
  have := List.mem_map_of_mem Prod.fst hm
  rw [h1] at this
  exact this

/-! ### Lemmas on the alignment step -/

theorem alignmentStep_wf {c : Dict} (kw : Kwargs) (hwf : wf c = true) :
    ∃ c', alignmentStep c kw = .ok c' ∧ wf c' = true := by
  unfold alignmentStep
  cases kw.alignment with
  | none => exact ⟨c, rfl, hwf⟩
  | some a => exact setIn_ok_section hwf (by simp [sectionName]) _ _

theorem alignmentStep_frameIn {c c' : Dict} {kw : Kwargs}
    (h : alignmentStep c kw = .ok c') (o i : String)
    (hne : ¬(o = "align" ∧ i = "protocol")) : getIn c' o i = getIn c o i := by
  unfold alignmentStep at h
  cases ha : kw.alignment with
  | none => rw [ha] at h; cases h; rfl
  | some a =>
    rw [ha] at h
    exact getIn_setIn_ne h o i hne

theorem alignmentStep_frameTop {c c' : Dict} {kw : Kwargs}
    (h : alignmentStep c kw = .ok c') (k : String) (hk : k ≠ "align") :
    dictGet? c' k = dictGet? c k := by
  unfold alignmentStep at h
  cases ha : kw.alignment with
  | none => rw [ha] at h; cases h; rfl
  | some a =>
    rw [ha] at h
    exact setIn_top_ne h k hk

theorem alignmentStep_writes {c c' : Dict} {kw : Kwargs} {a : String}
    (ha : kw.alignment = some a) (h : alignmentStep c kw = .ok c') :
    getIn c' "align" "protocol" = some (.vstr "existing") := by
  unfold alignmentStep at h
  rw [ha] at h
  exact getIn_setIn_self h

/-! ### Lemmas on the region step -/

theorem regionStep_of_none {c : Dict} {kw : Kwargs} (ha : kw.region = none) :
    regionStep c kw = .ok c := by
  unfold regionStep
  rw [ha]

theorem regionStep_of_some {c : Dict} {kw : Kwargs} {r : String}
    (ha : kw.region = some r) : regionStep c kw = regionApply c r := by
  unfold regionStep
  rw [ha]

theorem regionApply_of_match {c : Dict} {r : String} {a b : Nat}
    (hm : searchRegion r = some (a, b)) :
    regionApply c r =
      setIn c "global" "region" (.vlist [.vint (a : Int), .vint (b : Int)]) := by
  unfold regionApply
  rw [hm]

theorem regionApply_of_nomatch {c : Dict} {r : String}
    (hm : searchRegion r = none) :
    regionApply c r = .error (.invalidParameter regionMsg) := by
  unfold regionApply
  rw [hm]

theorem regionStep_wf {c : Dict} (kw : Kwargs) (hwf : wf c = true) :
    (∃ c', regionStep c kw = .ok c' ∧ wf c' = true) ∨
      regionStep c kw = .error (.invalidParameter regionMsg) := by
  cases ha : kw.region with
  | none => exact .inl ⟨c, regionStep_of_none ha, hwf⟩
  | some r =>
    rw [regionStep_of_some ha]
    cases hm : searchRegion r with
    | none => exact .inr (regionApply_of_nomatch hm)
    | some p =>
      obtain ⟨a, b⟩ := p
      rw [regionApply_of_match hm]
      exact .inl (setIn_ok_section hwf (by simp [sectionName]) _ _)

theorem regionStep_frameIn {c c' : Dict} {kw : Kwargs}
    (h : regionStep c kw = .ok c') (o i : String)
    (hne : ¬(o = "global" ∧ i = "region")) : getIn c' o i = getIn c o i := by
  cases ha : kw.region with
  | none => rw [regionStep_of_none ha] at h; cases h; rfl
  | some r =>
    rw [regionStep_of_some ha] at h
    cases hm : searchRegion r with
    | none => rw [regionApply_of_nomatch hm] at h; exact absurd h (by simp)
    | some p =>
      obtain ⟨a, b⟩ := p
      rw [regionApply_of_match hm] at h
      exact getIn_setIn_ne h o i hne

theorem regionStep_frameTop {c c' : Dict} {kw : Kwargs}
    (h : regionStep c kw = .ok c') (k : String) (hk : k ≠ "global") :
    dictGet? c' k = dictGet? c k := by
  cases ha : kw.region with
  | none => rw [regionStep_of_none ha] at h; cases h; rfl
  | some r =>
    rw [regionStep_of_some ha] at h
    cases hm : searchRegion r with
    | none => rw [regionApply_of_nomatch hm] at h; exact absurd h (by simp)
    | some p =>
      obtain ⟨a, b⟩ := p
      rw [regionApply_of_match hm] at h
      exact setIn_top_ne h k hk

theorem regionStep_err {c : Dict} {kw : Kwargs} {r : String}
    (hr : kw.region = some r) (hm : searchRegion r = none) :
    regionStep c kw = .error (.invalidParameter regionMsg) := by
  rw [regionStep_of_some hr]
  exact regionApply_of_nomatch hm

theorem regionStep_writes {c c' : Dict} {kw : Kwargs} {r : String} {a b : Nat}
    (hr : kw.region = some r) (hm : searchRegion r = some (a, b))
    (h : regionStep c kw = .ok c') :
    getIn c' "global" "region" = some (.vlist [.vint (a : Int), .vint (b : Int)]) := by
  rw [regionStep_of_some hr, regionApply_of_match hm] at h
  exact getIn_setIn_self h

/-! ### Lemmas on the stages step -/

theorem stagesStep_wf {c : Dict} (kw : Kwargs) (hwf : wf c = true) :
    ∃ c', stagesStep c kw = .ok c' ∧ wf c' = true := by
  unfold stagesStep
  cases kw.stages with
  | none => exact ⟨c, rfl, hwf⟩
  | some s =>
    refine ⟨_, rfl, ?_⟩
    exact wf_dictSet_ne hwf "stages" _ (by refine ⟨?_, ?_, ?_, ?_, ?_⟩ <;> decide)

theorem stagesStep_frameIn {c c' : Dict} {kw : Kwargs}
    (h : stagesStep c kw = .ok c') (o i : String) (ho : o ≠ "stages") :
    getIn c' o i = getIn c o i := by
  unfold stagesStep at h
  cases ha : kw.stages with
  | none => rw [ha] at h; cases h; rfl
  | some s =>
    rw [ha] at h
    cases h
    exact getIn_dictSet_outer_ne c "stages" _ o i ho

theorem stagesStep_frameTop {c c' : Dict} {kw : Kwargs}
    (h : stagesStep c kw = .ok c') (k : String) (hk : k ≠ "stages") :
    dictGet? c' k = dictGet? c k := by
  unfold stagesStep at h
  cases ha : kw.stages with
  | none => rw [ha] at h; cases h; rfl
  | some s =>
    rw [ha] at h
    cases h
    exact dictGet_dictSet_ne c "stages" k _ hk

/-! ### Lemmas on the database step -/

theorem databaseStep_of_none {c : Dict} {kw : Kwargs} (ha : kw.database = none) :
    databaseStep c kw = .ok c := by
  unfold databaseStep
  rw [ha]

theorem databaseStep_of_some {c : Dict} {kw : Kwargs} {db : String}
    (ha : kw.database = some db) : databaseStep c kw = databaseApply c db := by
  unfold databaseStep
  rw [ha]

theorem databaseApply_found {c : Dict} {db : String} {d : Dict}
    (hg : dictGet? c "databases" = some (.vdict d))
    (hk : dictHasKey d db = true) :
    databaseApply c db = setIn c "align" "database" (.vstr db) := by
  unfold databaseApply
  rw [hg]
  have h' : (if dictHasKey d db = true then setIn c "align" "database" (.vstr db)
      else do
        let c1 ← setIn c "align" "database" (.vstr "custom")
        setIn c1 "databases" "custom" (.vstr db)) =
      setIn c "align" "database" (.vstr db) := by rw [if_pos hk]
  exact h'

theorem databaseApply_notfound {c : Dict} {db : String} {d : Dict}
    (hg : dictGet? c "databases" = some (.vdict d))
    (hk : dictHasKey d db = false) :
    databaseApply c db = (do
      let c1 ← setIn c "align" "database" (.vstr "custom")
      setIn c1 "databases" "custom" (.vstr db)) := by
  unfold databaseApply
  rw [hg]
  have h' : (if dictHasKey d db = true then setIn c "align" "database" (.vstr db)
      else do
        let c1 ← setIn c "align" "database" (.vstr "custom")
        setIn c1 "databases" "custom" (.vstr db)) = (do
      let c1 ← setIn c "align" "database" (.vstr "custom")
      setIn c1 "databases" "custom" (.vstr db)) := by rw [if_neg (by simp [hk])]
  exact h'

theorem databaseStep_wf {c : Dict} (kw : Kwargs) (hwf : wf c = true) :
    ∃ c', databaseStep c kw = .ok c' ∧ wf c' = true := by
  cases ha : kw.database with
  | none => exact ⟨c, databaseStep_of_none ha, hwf⟩
  | some db =>
    rw [databaseStep_of_some ha]
    obtain ⟨d, hg⟩ := wf_section_dict hwf
      (by simp [sectionName] : sectionName "databases")
    cases hk : dictHasKey d db with
    | true =>
      rw [databaseApply_found hg hk]
      exact setIn_ok_section hwf (by simp [sectionName]) _ _
    | false =>
      rw [databaseApply_notfound hg hk]
      obtain ⟨c1, h1, hwf1⟩ := setIn_ok_section hwf
        (by simp [sectionName] : sectionName "align") "database" (.vstr "custom")
      obtain ⟨c2, h2, hwf2⟩ := setIn_ok_section hwf1
        (by simp [sectionName] : sectionName "databases") "custom" (.vstr db)
      exact ⟨c2, by rw [h1, exceptBind_ok]; exact h2, hwf2⟩

theorem databaseStep_ok_elim {c c' : Dict} {kw : Kwargs} {db : String}
    (hdb : kw.database = some db) (h : databaseStep c kw = .ok c') :
    ∃ d, dictGet? c "databases" = some (.vdict d) ∧
      ((dictHasKey d db = true ∧ setIn c "align" "database" (.vstr db) = .ok c') ∨
       (dictHasKey d db = false ∧
         ∃ c1, setIn c "align" "database" (.vstr "custom") = .ok c1 ∧
           setIn c1 "databases" "custom" (.vstr db) = .ok c')) := by
  rw [databaseStep_of_some hdb] at h
  unfold databaseApply at h
  cases hg : dictGet? c "databases" with
  | none => rw [hg] at h; exact absurd h (by simp)
  | some w =>
    cases w with
    | vdict d =>
      rw [hg] at h
      have h' : (if dictHasKey d db = true then setIn c "align" "database" (.vstr db)
          else do
            let c1 ← setIn c "align" "database" (.vstr "custom")
            setIn c1 "databases" "custom" (.vstr db)) = .ok c' := h
      refine ⟨d, rfl, ?_⟩
      rcases Bool.eq_false_or_eq_true (dictHasKey d db) with hk | hk
      · rw [if_pos hk] at h'
        exact .inl ⟨hk, h'⟩
      · rw [if_neg (by simp [hk])] at h'
        cases h1 : setIn c "align" "database" (.vstr "custom") with
        | error err =>
          rw [h1, exceptBind_err] at h'
          exact absurd h' (by simp)
        | ok c1 =>
          rw [h1, exceptBind_ok] at h'
          exact .inr ⟨hk, c1, rfl, h'⟩
    | vstr s => rw [hg] at h; exact absurd h (by simp)
    | vint n => rw [hg] at h; exact absurd h (by simp)
    | vfloat f => rw [hg] at h; exact absurd h (by simp)
    | vbool b => rw [hg] at h; exact absurd h (by simp)
    | vlist xs => rw [hg] at h; exact absurd h (by simp)

theorem databaseStep_frameIn {c c' : Dict} {kw : Kwargs}
    (h : databaseStep c kw = .ok c') (o i : String)
    (h1 : ¬(o = "align" ∧ i = "database"))
    (h2 : ¬(o = "databases" ∧ i = "custom")) : getIn c' o i = getIn c o i := by
  cases ha : kw.database with
  | none => rw [databaseStep_of_none ha] at h; cases h; rfl
  | some db =>
    obtain ⟨d, hg, hcase⟩ := databaseStep_ok_elim ha h
    rcases hcase with ⟨hk, hs⟩ | ⟨hk, c1, hs1, hs2⟩
    · exact getIn_setIn_ne hs o i h1
    · rw [getIn_setIn_ne hs2 o i h2, getIn_setIn_ne hs1 o i h1]

theorem databaseStep_frameTop {c c' : Dict} {kw : Kwargs}
    (h : databaseStep c kw = .ok c') (k : String)
    (h1 : k ≠ "align") (h2 : k ≠ "databases") :
    dictGet? c' k = dictGet? c k := by
  cases ha : kw.database with
  | none => rw [databaseStep_of_none ha] at h; cases h; rfl
  | some db =>
    obtain ⟨d, hg, hcase⟩ := databaseStep_ok_elim ha h
    rcases hcase with ⟨hk, hs⟩ | ⟨hk, c1, hs1, hs2⟩
    · exact setIn_top_ne hs k h1
    · rw [setIn_top_ne hs2 k h2, setIn_top_ne hs1 k h1]

/-! ### Lemmas on the threshold step -/

theorem thresholdStep_of_absent {c : Dict} {kw : Kwargs}
    (hb : kw.bitscores = none) (he : kw.evalues = none) :
    thresholdStep c kw = .ok c := by
  unfold thresholdStep
  rw [hb, he]

theorem thresholdStep_of_both {c : Dict} {kw : Kwargs} {sb se : String}
    (hb : kw.bitscores = some sb) (he : kw.evalues = some se) :
    thresholdStep c kw = .error (.invalidParameter mutualMsg) := by
  unfold thresholdStep
  rw [hb, he]

theorem thresholdStep_of_sel {c : Dict} {kw : Kwargs} {bs : Bool} {s : String}
    (hsel : thresholdSel kw = some (bs, s)) :
    thresholdStep c kw = applyThresholds c bs s := by
  unfold thresholdSel at hsel
  unfold thresholdStep
  cases hb : kw.bitscores with
  | some sb =>
    cases he : kw.evalues with
    | some se => rw [hb, he] at hsel; exact absurd hsel (by simp)
    | none =>
      rw [hb, he] at hsel
      have h1 := Option.some.inj (show some (true, sb) = some (bs, s) from hsel)
      rw [Prod.ext_iff] at h1
      obtain ⟨h2, h3⟩ := h1
      subst h2
      subst h3
      rfl
  | none =>
    cases he : kw.evalues with
    | some se =>
      rw [hb, he] at hsel
      have h1 := Option.some.inj (show some (false, se) = some (bs, s) from hsel)
      rw [Prod.ext_iff] at h1
      obtain ⟨h2, h3⟩ := h1
      subst h2
      subst h3
      rfl
    | none => rw [hb, he] at hsel; exact absurd hsel (by simp)

theorem applyThresholds_parse_fail {c : Dict} {bs : Bool} {s : String}
    (hp : parseThresholds s = none) :
    applyThresholds c bs s = .error (.invalidParameter (numericMsg s)) := by
  unfold applyThresholds
  rw [hp]

theorem applyThresholds_of_parse {c : Dict} {bs : Bool} {s : String}
    {xs : List PyNum} (hp : parseThresholds s = some xs) :
    applyThresholds c bs s = thresholdWrite c bs xs := by
  unfold applyThresholds
  rw [hp]

theorem thresholdWrite_single {c : Dict} {bs : Bool} {t : PyNum} {c1 : Dict}
    (h1 : setIn c "align" "use_bitscores" (.vbool bs) = .ok c1) :
    thresholdWrite c bs [t] = (do
      let c2 ← setIn c1 "align" "domain_threshold" t.toValue
      setIn c2 "align" "sequence_threshold" t.toValue) := by
  unfold thresholdWrite
  rw [h1, exceptBind_ok]

theorem thresholdWrite_multi {c : Dict} {bs : Bool} {t1 t2 : PyNum}
    {rest : List PyNum} {c1 : Dict}
    (h1 : setIn c "align" "use_bitscores" (.vbool bs) = .ok c1) :
    thresholdWrite c bs (t1 :: t2 :: rest) =
      (t1 :: t2 :: rest).foldlM
        (fun cc t => setIn cc "batch" (subName bs t) (mkOverlay t))
        (dictSet c1 "batch" (.vdict [])) := by
  unfold thresholdWrite
  rw [h1, exceptBind_ok]

theorem thresholdWrite_ok_elim {c : Dict} {bs : Bool} {xs : List PyNum}
    {c' : Dict} (h : thresholdWrite c bs xs = .ok c') :
    ∃ c1, setIn c "align" "use_bitscores" (.vbool bs) = .ok c1 := by
  unfold thresholdWrite at h
  cases h1 : setIn c "align" "use_bitscores" (.vbool bs) with
  | error err => rw [h1, exceptBind_err] at h; exact absurd h (by simp)
  | ok c1 => exact ⟨c1, rfl⟩

theorem thresholdWrite_nil {c : Dict} {bs : Bool} {c1 : Dict}
    (h1 : setIn c "align" "use_bitscores" (.vbool bs) = .ok c1) :
    thresholdWrite c bs [] = .ok (dictSet c1 "batch" (.vdict [])) := by
  unfold thresholdWrite
  rw [h1, exceptBind_ok]
  rfl


/-! ### The batch fold -/

theorem foldBatch (bs : Bool) :
    ∀ (ts : List PyNum) (c b : Dict),
      dictGet? c "batch" = some (.vdict b) →
      ts.foldlM (fun cc t => setIn cc "batch" (subName bs t) (mkOverlay t)) c =
        .ok (dictSet c "batch"
          (.vdict (ts.foldl (fun d t => dictSet d (subName bs t) (mkOverlay t)) b))) := by
  intro ts
  induction ts with
  | nil =>
    intro c b hg
    rw [List.foldlM_nil, List.foldl_nil, dictSet_get_self c "batch" _ hg]
    rfl
  | cons t ts' ih =>
    intro c b hg
    rw [List.foldlM_cons, setIn_ok_of_dict hg _ _, exceptBind_ok]
    rw [ih _ (dictSet b (subName bs t) (mkOverlay t)) (dictGet_dictSet_self c _ _)]
    rw [dictSet_dictSet_same]
    rfl

theorem foldIns_preserve (bs : Bool) (k : String) (v : Value) :
    ∀ (ts : List PyNum) (b : Dict),
      dictGet? b k = some v →
      (∀ t ∈ ts, subName bs t = k → mkOverlay t = v) →
      dictGet? (ts.foldl (fun d t => dictSet d (subName bs t) (mkOverlay t)) b) k
        = some v := by
  intro ts
  induction ts with
  | nil => intro b hb _; exact hb
  | cons t ts' ih =>
    intro b hb hts
    rw [List.foldl_cons]
    by_cases hk : subName bs t = k
    · apply ih
      · rw [hk, dictGet_dictSet_self, hts t (List.mem_cons_self t ts') hk]
      · exact fun x hx => hts x (List.mem_cons_of_mem t hx)
    · apply ih
      · rw [dictGet_dictSet_ne b _ k _ (Ne.symm hk)]
        exact hb
      · exact fun x hx => hts x (List.mem_cons_of_mem t hx)

theorem foldIns_get (bs : Bool) :
    ∀ (ts : List PyNum) (b : Dict) (t : PyNum),
      t ∈ ts →
      (∀ t1 ∈ ts, ∀ t2 ∈ ts, subName bs t1 = subName bs t2 → t1 = t2) →
      dictGet? (ts.foldl (fun d t => dictSet d (subName bs t) (mkOverlay t)) b)
        (subName bs t) = some (mkOverlay t) := by
  intro ts
  induction ts with
  | nil => intro b t hm; simp at hm
  | cons t0 ts' ih =>
    intro b t hm hinj
    rcases List.mem_cons.mp hm with he | he
    · subst he
      rw [List.foldl_cons]
      apply foldIns_preserve
      · exact dictGet_dictSet_self b _ _
      · intro x hx hxk
        have := hinj x (List.mem_cons_of_mem t hx) t (List.mem_cons_self t ts') hxk
        rw [this]
    · rw [List.foldl_cons]
      exact ih _ t he
        (fun t1 h1 t2 h2 => hinj t1 (List.mem_cons_of_mem t0 h1)
          t2 (List.mem_cons_of_mem t0 h2))

theorem foldIns_entries (bs : Bool) :
    ∀ (ts : List PyNum) (b : Dict) (p : String × Value),
      p ∈ ts.foldl (fun d t => dictSet d (subName bs t) (mkOverlay t)) b →
      p ∈ b ∨ ∃ t ∈ ts, p = (subName bs t, mkOverlay t) := by
  intro ts
  induction ts with
  | nil => intro b p hp; exact .inl hp
  | cons t0 ts' ih =>
    intro b p hp
    rw [List.foldl_cons] at hp
    rcases ih _ p hp with h1 | ⟨t, ht, he⟩
    · rcases mem_dictSet b _ _ p h1 with h2 | h2
      · exact .inr ⟨t0, List.mem_cons_self t0 ts', h2⟩
      · exact .inl h2
    · exact .inr ⟨t, List.mem_cons_of_mem t0 ht, he⟩

theorem foldIns_nodup (bs : Bool) :
    ∀ (ts : List PyNum) (b : Dict),
      (b.map Prod.fst).Nodup →
      ((ts.foldl (fun d t => dictSet d (subName bs t) (mkOverlay t)) b).map
        Prod.fst).Nodup := by
  intro ts
  induction ts with
  | nil => intro b hb; exact hb
  | cons t0 ts' ih =>
    intro b hb
    rw [List.foldl_cons]
    exact ih _ (keys_dictSet_nodup b _ _ hb)

/-! ### Injectivity of the number-to-string map on parsed numbers

Python `str` is injective on the numbers the threshold parser can produce:
distinct ints print differently, a float repr always contains a `.` or an
`e` while an int repr never does, and the float model is keyed by its repr.
This is what makes batch keys collide only for equal threshold values. -/

theorem natDigitsAux_eq : ∀ (fuel n : Nat), n ≤ fuel →
    natDigitsAux fuel n = Nat.digits 10 n := by
  intro fuel
  induction fuel with
  | zero =>
    intro n hn
    have h0 : n = 0 := Nat.le_zero.mp hn
    subst h0
    simp [natDigitsAux]
  | succ f ih =>
    intro n hn
    by_cases h0 : n = 0
    · subst h0
      simp [natDigitsAux]
    · simp only [natDigitsAux, if_neg h0]
      rw [Nat.digits_def' (by norm_num : 1 < 10) (Nat.pos_of_ne_zero h0)]
      congr 1
      apply ih
      have : n / 10 < n := Nat.div_lt_self (Nat.pos_of_ne_zero h0) (by norm_num)
      omega

theorem natDigitsL_eq (n : Nat) : natDigitsL n = Nat.digits 10 n :=
  natDigitsAux_eq n n le_rfl

theorem digitVal_digitChar {d : Nat} (hd : d < 10) : digitVal (digitChar d) = d := by
  interval_cases d <;> decide

theorem digitChar_isDigit {d : Nat} (hd : d < 10) : (digitChar d).isDigit = true := by
  interval_cases d <;> decide

theorem digitChar_inj {d1 d2 : Nat} (h1 : d1 < 10) (h2 : d2 < 10)
    (h : digitChar d1 = digitChar d2) : d1 = d2 := by
  rw [← digitVal_digitChar h1, ← digitVal_digitChar h2, h]

theorem natChars_all_digit (n : Nat) : ∀ c ∈ natChars n, c.isDigit = true := by
  intro c hc
  unfold natChars at hc
  by_cases h0 : n = 0
  · rw [if_pos h0] at hc
    simp at hc
    subst hc
    decide
  · rw [if_neg h0, natDigitsL_eq] at hc
    obtain ⟨d, hd, hcd⟩ := List.mem_map.mp hc
    rw [List.mem_reverse] at hd
    rw [← hcd]
    exact digitChar_isDigit (Nat.digits_lt_base (by norm_num) hd)

theorem natChars_ne_nil (n : Nat) : natChars n ≠ [] := by
  unfold natChars
  by_cases h0 : n = 0
  · simp [h0]
  · rw [if_neg h0, natDigitsL_eq]
    intro h
    have hlen := congrArg List.length h
    simp at hlen
    exact (Nat.digits_ne_nil_iff_ne_zero.mpr h0) hlen

theorem map_digitChar_inj : ∀ (l1 l2 : List Nat),
    (∀ d ∈ l1, d < 10) → (∀ d ∈ l2, d < 10) →
    l1.map digitChar = l2.map digitChar → l1 = l2 := by
  intro l1
  induction l1 with
  | nil =>
    intro l2 _ _ h
    cases l2 with
    | nil => rfl
    | cons d2 l2' => simp at h
  | cons d l ih =>
    intro l2 h1 h2 h
    cases l2 with
    | nil => simp at h
    | cons d2 l2' =>
      simp only [List.map_cons, List.cons.injEq] at h
      have hd := digitChar_inj (h1 d (List.mem_cons_self d l))
        (h2 d2 (List.mem_cons_self d2 l2')) h.1
      rw [hd, ih l2' (fun x hx => h1 x (List.mem_cons_of_mem d hx))
        (fun x hx => h2 x (List.mem_cons_of_mem d2 hx)) h.2]

theorem natChars_eq_singleton_zero {n : Nat} (h : natChars n = ['0']) :
    n = 0 := by
  by_contra h0
  unfold natChars at h
  rw [if_neg h0, natDigitsL_eq] at h
  cases hrev : (Nat.digits 10 n).reverse with
  | nil =>
    rw [hrev] at h
    simp at h
  | cons d rest =>
    rw [hrev] at h
    simp only [List.map_cons, List.cons.injEq] at h
    obtain ⟨hc, hrest⟩ := h
    have hd10 : d < 10 := Nat.digits_lt_base (by norm_num)
      (List.mem_reverse.mp (by rw [hrev]; exact List.mem_cons_self d rest))
    have hd0 : d = 0 := digitChar_inj hd10 (by norm_num) hc
    have hrest0 : rest = [] := List.map_eq_nil_iff.mp hrest
    have hdig : Nat.digits 10 n = [0] := by
      have hr := congrArg List.reverse hrev
      rw [List.reverse_reverse] at hr
      rw [hr, hd0, hrest0]
      rfl
    have hn := Nat.ofDigits_digits 10 n
    rw [hdig] at hn
    simp [Nat.ofDigits] at hn
    exact h0 hn.symm

theorem natChars_inj {n1 n2 : Nat} (h : natChars n1 = natChars n2) : n1 = n2 := by
  by_cases h1 : n1 = 0 <;> by_cases h2 : n2 = 0
  · rw [h1, h2]
  · exfalso
    apply h2
    apply natChars_eq_singleton_zero
    rw [← h, h1]
    rfl
  · exfalso
    apply h1
    apply natChars_eq_singleton_zero
    rw [h, h2]
    rfl
  · unfold natChars at h
    rw [if_neg h1, if_neg h2, natDigitsL_eq, natDigitsL_eq] at h
    have hrev := map_digitChar_inj _ _
      (fun d hd => Nat.digits_lt_base (by norm_num) (List.mem_reverse.mp hd))
      (fun d hd => Nat.digits_lt_base (by norm_num) (List.mem_reverse.mp hd)) h
    have hdig := List.reverse_injective hrev
    rw [← Nat.ofDigits_digits 10 n1, ← Nat.ofDigits_digits 10 n2, hdig]

theorem intChars_digit_or_minus (n : Int) :
    ∀ c ∈ intChars n, c.isDigit = true ∨ c = '-' := by
  intro c hc
  unfold intChars at hc
  rw [List.mem_append] at hc
  rcases hc with hc | hc
  · by_cases hn : n < 0
    · rw [if_pos hn] at hc
      simp at hc
      exact .inr hc
    · rw [if_neg hn] at hc
      simp at hc
  · exact .inl (natChars_all_digit n.natAbs c hc)

theorem intChars_no_dot (n : Int) : '.' ∉ intChars n := by
  intro hc
  rcases intChars_digit_or_minus n '.' hc with h | h
  · exact absurd h (by decide)
  · exact absurd h (by decide)

theorem intChars_no_e (n : Int) : 'e' ∉ intChars n := by
  intro hc
  rcases intChars_digit_or_minus n 'e' hc with h | h
  · exact absurd h (by decide)
  · exact absurd h (by decide)

theorem intChars_inj {n1 n2 : Int} (h : intChars n1 = intChars n2) : n1 = n2 := by
  unfold intChars at h
  by_cases h1 : n1 < 0 <;> by_cases h2 : n2 < 0
  · rw [if_pos h1, if_pos h2] at h
    simp only [List.cons_append, List.nil_append, List.cons.injEq, true_and] at h
    have := natChars_inj h
    omega
  · exfalso
    rw [if_pos h1, if_neg h2] at h
    simp only [List.cons_append, List.nil_append] at h
    cases hnc : natChars n2.natAbs with
    | nil => exact natChars_ne_nil _ hnc
    | cons c rest =>
      rw [hnc] at h
      simp only [List.cons.injEq] at h
      have hd := natChars_all_digit n2.natAbs c
        (by rw [hnc]; exact List.mem_cons_self c rest)
      rw [← h.1] at hd
      exact absurd hd (by decide)
  · exfalso
    rw [if_neg h1, if_pos h2] at h
    simp only [List.cons_append, List.nil_append] at h
    cases hnc : natChars n1.natAbs with
    | nil => exact natChars_ne_nil _ hnc
    | cons c rest =>
      rw [hnc] at h
      simp only [List.cons.injEq] at h
      have hd := natChars_all_digit n1.natAbs c
        (by rw [hnc]; exact List.mem_cons_self c rest)
      rw [h.1] at hd
      exact absurd hd (by decide)
  · rw [if_neg h1, if_neg h2] at h
    simp only [List.nil_append] at h
    have := natChars_inj h
    omega

theorem renderBody_dot_or_e (ds : List Char) (e : Int) :
    '.' ∈ renderBody ds e ∨ 'e' ∈ renderBody ds e := by
  simp only [renderBody]
  split_ifs with h1 h2 h3 h4
  · left
    simp [zeroChars]
  · left
    simp
  · left
    simp [zeroChars]
  · right
    simp
  · right
    simp

theorem renderChars_dot_or_e (m e : Int) :
    '.' ∈ renderChars m e ∨ 'e' ∈ renderChars m e := by
  unfold renderChars
  by_cases h0 : m = 0
  · rw [if_pos h0]
    left
    simp
  · rw [if_neg h0]
    rcases renderBody_dot_or_e (natChars m.natAbs) e with h | h
    · left
      rw [List.mem_append]
      exact .inr h
    · right
      rw [List.mem_append]
      exact .inr h

/-! ### Parsed numbers and key injectivity -/

/-- A number that can come out of the threshold parser: any int, or a float
carrying a rendered repr. -/
def parsedNum (t : PyNum) : Prop :=
  match t with
  | .pint _ => True
  | .pfloat f => ∃ m e, f = ⟨renderFloat m e⟩

theorem parsedNum_of_token {t : String} {x : PyNum}
    (h : pyNumOfToken t = some x) : parsedNum x := by
  unfold pyNumOfToken at h
  by_cases hd : t.data.contains '.'
  · rw [if_pos hd] at h
    unfold pyFloatOfString at h
    cases hfp : floatParts t with
    | none => rw [hfp] at h; exact absurd h (by simp)
    | some p =>
      rw [hfp] at h
      have h' : some (PyNum.pfloat ⟨renderFloat p.1 p.2⟩) = some x := h
      rw [← Option.some.inj h']
      exact ⟨p.1, p.2, rfl⟩
  · rw [if_neg hd] at h
    cases hip : pyIntOfString t with
    | none => rw [hip] at h; exact absurd h (by simp)
    | some n =>
      rw [hip] at h
      have h' : some (PyNum.pint n) = some x := h
      rw [← Option.some.inj h']
      trivial

theorem mapM_option_mem {α β : Type} (f : α → Option β) :
    ∀ (l : List α) (ys : List β), l.mapM f = some ys →
      ∀ y ∈ ys, ∃ a ∈ l, f a = some y := by
  intro l
  induction l with
  | nil =>
    intro ys h y hy
    rw [List.mapM_nil] at h
    have h' : some ([] : List β) = some ys := h
    rw [← Option.some.inj h'] at hy
    simp at hy
  | cons a l' ih =>
    intro ys h y hy
    rw [List.mapM_cons] at h
    cases hfa : f a with
    | none => rw [hfa] at h; exact absurd h (by simp)
    | some b =>
      rw [hfa] at h
      cases hrest : l'.mapM f with
      | none =>
        rw [hrest] at h
        exact absurd h (by simp)
      | some bs =>
        rw [hrest] at h
        have h' : some (b :: bs) = some ys := h
        rw [← Option.some.inj h'] at hy
        rcases List.mem_cons.mp hy with he | hy'
        · exact ⟨a, List.mem_cons_self a l', by rw [hfa, he]⟩
        · obtain ⟨a', ha', hfa'⟩ := ih bs hrest y hy'
          exact ⟨a', List.mem_cons_of_mem a ha', hfa'⟩

theorem parseThresholds_parsedNum {s : String} {xs : List PyNum}
    (hp : parseThresholds s = some xs) : ∀ x ∈ xs, parsedNum x := by
  intro x hx
  obtain ⟨tok, _, htok⟩ := mapM_option_mem pyNumOfToken (commaTokens s) xs hp x hx
  exact parsedNum_of_token htok

theorem parsed_str_inj {t1 t2 : PyNum} (h1 : parsedNum t1) (h2 : parsedNum t2)
    (h : PyNum.str t1 = PyNum.str t2) : t1 = t2 := by
  cases t1 with
  | pint n1 =>
    cases t2 with
    | pint n2 =>
      have hdata : intChars n1 = intChars n2 := congrArg String.data h
      exact congrArg PyNum.pint (intChars_inj hdata)
    | pfloat f2 =>
      exfalso
      obtain ⟨m, e, rfl⟩ := h2
      have hdata : intChars n1 =
          renderChars (normPairAux m.natAbs m e).1 (normPairAux m.natAbs m e).2 :=
        congrArg String.data h
      rcases renderChars_dot_or_e (normPairAux m.natAbs m e).1
          (normPairAux m.natAbs m e).2 with hc | hc
      · rw [← hdata] at hc
        exact intChars_no_dot n1 hc
      · rw [← hdata] at hc
        exact intChars_no_e n1 hc
  | pfloat f1 =>
    cases t2 with
    | pint n2 =>
      exfalso
      obtain ⟨m, e, rfl⟩ := h1
      have hdata : renderChars (normPairAux m.natAbs m e).1
          (normPairAux m.natAbs m e).2 = intChars n2 := congrArg String.data h
      rcases renderChars_dot_or_e (normPairAux m.natAbs m e).1
          (normPairAux m.natAbs m e).2 with hc | hc
      · rw [hdata] at hc
        exact intChars_no_dot n2 hc
      · rw [hdata] at hc
        exact intChars_no_e n2 hc
    | pfloat f2 =>
      have hr : f1.rep = f2.rep := h
      apply congrArg PyNum.pfloat
      cases f1
      cases f2
      simp only [PyFloat.mk.injEq]
      exact hr

theorem subName_inj {bs : Bool} {t1 t2 : PyNum} (h1 : parsedNum t1)
    (h2 : parsedNum t2) (h : subName bs t1 = subName bs t2) : t1 = t2 := by
  unfold subName at h
  have hdata := congrArg String.data h
  have hap : ∀ (a b : String), (a ++ b).data = a.data ++ b.data := fun a b => rfl
  rw [hap, hap] at hdata
  have hstr : (PyNum.str t1).data = (PyNum.str t2).data :=
    List.append_cancel_left hdata
  exact parsed_str_inj h1 h2 (by
    cases hs1 : PyNum.str t1
    cases hs2 : PyNum.str t2
    rw [hs1, hs2] at hstr
    exact congrArg String.mk hstr)

theorem applyThresholds_frame {c c' : Dict} {bs : Bool} {s : String}
    (h : applyThresholds c bs s = .ok c') (o i : String)
    (ho : o ≠ "batch")
    (hn1 : ¬(o = "align" ∧ i = "use_bitscores"))
    (hn2 : ¬(o = "align" ∧ i = "domain_threshold"))
    (hn3 : ¬(o = "align" ∧ i = "sequence_threshold")) :
    getIn c' o i = getIn c o i := by
  cases hp : parseThresholds s with
  | none =>
    rw [applyThresholds_parse_fail hp] at h
    exact absurd h (by simp)
  | some xs =>
    rw [applyThresholds_of_parse hp] at h
    obtain ⟨c1, hs1⟩ := thresholdWrite_ok_elim h
    have hfr1 : getIn c1 o i = getIn c o i := getIn_setIn_ne hs1 o i hn1
    match xs with
    | [] =>
      rw [thresholdWrite_nil hs1] at h
      have hc' : c' = dictSet c1 "batch" (.vdict []) := (Except.ok.inj h).symm
      rw [hc', getIn_dictSet_outer_ne c1 "batch" _ o i ho, hfr1]
    | [t] =>
      rw [thresholdWrite_single hs1] at h
      cases hs2 : setIn c1 "align" "domain_threshold" t.toValue with
      | error err => rw [hs2, exceptBind_err] at h; exact absurd h (by simp)
      | ok c2 =>
        rw [hs2, exceptBind_ok] at h
        rw [getIn_setIn_ne h o i hn3, getIn_setIn_ne hs2 o i hn2, hfr1]
    | t1 :: t2 :: rest =>
      rw [thresholdWrite_multi hs1] at h
      rw [foldBatch bs (t1 :: t2 :: rest) _ [] (dictGet_dictSet_self c1 _ _)] at h
      have hc' := (Except.ok.inj h).symm
      rw [hc', getIn_dictSet_outer_ne _ "batch" _ o i ho,
        getIn_dictSet_outer_ne c1 "batch" _ o i ho, hfr1]

theorem thresholdStep_frame {c c' : Dict} {kw : Kwargs}
    (h : thresholdStep c kw = .ok c') (o i : String)
    (ho : o ≠ "batch")
    (hn1 : ¬(o = "align" ∧ i = "use_bitscores"))
    (hn2 : ¬(o = "align" ∧ i = "domain_threshold"))
    (hn3 : ¬(o = "align" ∧ i = "sequence_threshold")) :
    getIn c' o i = getIn c o i := by
  cases hb : kw.bitscores with
  | none =>
    cases he : kw.evalues with
    | none => rw [thresholdStep_of_absent hb he] at h; cases h; rfl
    | some s =>
      rw [thresholdStep_of_sel
        (show thresholdSel kw = some (false, s) by
          unfold thresholdSel; rw [hb, he])] at h
      exact applyThresholds_frame h o i ho hn1 hn2 hn3
  | some s =>
    cases he : kw.evalues with
    | some se =>
      rw [thresholdStep_of_both hb he] at h
      exact absurd h (by simp)
    | none =>
      rw [thresholdStep_of_sel
        (show thresholdSel kw = some (true, s) by
          unfold thresholdSel; rw [hb, he])] at h
      exact applyThresholds_frame h o i ho hn1 hn2 hn3

theorem applyThresholds_frameTop {c c' : Dict} {bs : Bool} {s : String}
    (h : applyThresholds c bs s = .ok c') (k : String)
    (hk1 : k ≠ "batch") (hk2 : k ≠ "align") :
    dictGet? c' k = dictGet? c k := by
  cases hp : parseThresholds s with
  | none =>
    rw [applyThresholds_parse_fail hp] at h
    exact absurd h (by simp)
  | some xs =>
    rw [applyThresholds_of_parse hp] at h
    obtain ⟨c1, hs1⟩ := thresholdWrite_ok_elim h
    have hfr1 : dictGet? c1 k = dictGet? c k := setIn_top_ne hs1 k hk2
    match xs with
    | [] =>
      rw [thresholdWrite_nil hs1] at h
      have hc' : c' = dictSet c1 "batch" (.vdict []) := (Except.ok.inj h).symm
      rw [hc', dictGet_dictSet_ne c1 "batch" k _ hk1, hfr1]
    | [t] =>
      rw [thresholdWrite_single hs1] at h
      cases hs2 : setIn c1 "align" "domain_threshold" t.toValue with
      | error err => rw [hs2, exceptBind_err] at h; exact absurd h (by simp)
      | ok c2 =>
        rw [hs2, exceptBind_ok] at h
        rw [setIn_top_ne h k hk2, setIn_top_ne hs2 k hk2, hfr1]
    | t1 :: t2 :: rest =>
      rw [thresholdWrite_multi hs1] at h
      rw [foldBatch bs (t1 :: t2 :: rest) _ [] (dictGet_dictSet_self c1 _ _)] at h
      have hc' := (Except.ok.inj h).symm
      rw [hc', dictGet_dictSet_ne _ "batch" k _ hk1,
        dictGet_dictSet_ne c1 "batch" k _ hk1, hfr1]


/-! ### Decomposition of the engine pipeline -/

theorem substitute_config_decompose {c : Dict} {kw : Kwargs} {c' : Dict}
    (h : substitute_config c kw = .ok c') :
    ∃ c1 c2 c3 c4 c5,
      applyMapStep c kw = .ok c1 ∧ alignmentStep c1 kw = .ok c2 ∧
      regionStep c2 kw = .ok c3 ∧ stagesStep c3 kw = .ok c4 ∧
      databaseStep c4 kw = .ok c5 ∧ thresholdStep c5 kw = .ok c' := by
  unfold substitute_config at h
  cases h1 : applyMapStep c kw with
  | error e => rw [h1, exceptBind_err] at h; exact absurd h (by simp)
  | ok c1 =>
    rw [h1, exceptBind_ok] at h
    cases h2 : alignmentStep c1 kw with
    | error e => rw [h2, exceptBind_err] at h; exact absurd h (by simp)
    | ok c2 =>
      rw [h2, exceptBind_ok] at h
      cases h3 : regionStep c2 kw with
      | error e => rw [h3, exceptBind_err] at h; exact absurd h (by simp)
      | ok c3 =>
        rw [h3, exceptBind_ok] at h
        cases h4 : stagesStep c3 kw with
        | error e => rw [h4, exceptBind_err] at h; exact absurd h (by simp)
        | ok c4 =>
          rw [h4, exceptBind_ok] at h
          cases h5 : databaseStep c4 kw with
          | error e => rw [h5, exceptBind_err] at h; exact absurd h (by simp)
          | ok c5 =>
            rw [h5, exceptBind_ok] at h
            exact ⟨c1, c2, c3, c4, c5, rfl, h2, h3, h4, h5, h⟩

/-! ### The claims -/

/-- C9: for every base configuration, running the engine with an override
set in which every override is absent returns the base configuration
unchanged; hence re-running the engine on its own output with an empty
override set returns the same configuration (idempotence). -/
theorem claim_C9_empty_overrides_identity (c : Dict) (kw : Kwargs)
    (h1 : kw.pfx = none) (h2 : kw.protein = none) (h3 : kw.seqfile = none)
    (h4 : kw.alignment = none) (h5 : kw.iterations = none) (h6 : kw.id = none)
    (h7 : kw.seqcov = none) (h8 : kw.colcov = none) (h9 : kw.theta = none)
    (h10 : kw.plmiter = none) (h11 : kw.queue = none) (h12 : kw.time = none)
    (h13 : kw.cores = none) (h14 : kw.memory = none) (h15 : kw.region = none)
    (h16 : kw.stages = none) (h17 : kw.database = none)
    (h18 : kw.bitscores = none) (h19 : kw.evalues = none) :
    substitute_config c kw = .ok c := by
  obtain ⟨f1, f2, f3, f4, f5, f6, f7, f8, f9, f10, f11, f12, f13, f14, f15,
    f16, f17, f18, f19⟩ := kw
  replace h1 : f1 = none := h1
  replace h2 : f2 = none := h2
  replace h3 : f3 = none := h3
  replace h4 : f4 = none := h4
  replace h5 : f5 = none := h5
  replace h6 : f6 = none := h6
  replace h7 : f7 = none := h7
  replace h8 : f8 = none := h8
  replace h9 : f9 = none := h9
  replace h10 : f10 = none := h10
  replace h11 : f11 = none := h11
  replace h12 : f12 = none := h12
  replace h13 : f13 = none := h13
  replace h14 : f14 = none := h14
  replace h15 : f15 = none := h15
  replace h16 : f16 = none := h16
  replace h17 : f17 = none := h17
  replace h18 : f18 = none := h18
  replace h19 : f19 = none := h19
  subst h1 h2 h3 h4 h5 h6 h7 h8 h9 h10 h11 h12 h13 h14 h15 h16 h17 h18 h19
  rfl

/-- Witness for C9 at a concrete configuration and the empty override set. -/
theorem claim_C9_witness : substitute_config baseConfig {} = .ok baseConfig :=
  claim_C9_empty_overrides_identity baseConfig {} rfl rfl rfl rfl rfl rfl rfl
    rfl rfl rfl rfl rfl rfl rfl rfl rfl rfl rfl rfl

/-- C2: whenever both `bitscores` and `evalues` are supplied (any non-absent
values), the engine fails with a ParameterValidation (InvalidParameterError)
error, regardless of the content of the two strings.  (If an earlier step
fails first, that failure is also an InvalidParameterError.) -/
theorem claim_C2_mutual_exclusion (c : Dict) (kw : Kwargs) (sb se : String)
    (hwf : wf c = true) (hb : kw.bitscores = some sb)
    (he : kw.evalues = some se) :
    ∃ msg, substitute_config c kw = .error (.invalidParameter msg) := by
  obtain ⟨c1, h1, hwf1⟩ := applyMapStep_wf kw hwf
  obtain ⟨c2, h2, hwf2⟩ := alignmentStep_wf kw hwf1
  rcases regionStep_wf kw hwf2 with ⟨c3, h3, hwf3⟩ | h3err
  · obtain ⟨c4, h4, hwf4⟩ := stagesStep_wf kw hwf3
    obtain ⟨c5, h5, hwf5⟩ := databaseStep_wf kw hwf4
    refine ⟨mutualMsg, ?_⟩
    unfold substitute_config
    rw [h1, exceptBind_ok, h2, exceptBind_ok, h3, exceptBind_ok, h4,
      exceptBind_ok, h5, exceptBind_ok]
    exact thresholdStep_of_both hb he
  · refine ⟨regionMsg, ?_⟩
    unfold substitute_config
    rw [h1, exceptBind_ok, h2, exceptBind_ok, h3err, exceptBind_err]

/-- Witness for C2: both thresholds supplied on the concrete base
configuration. -/
theorem claim_C2_witness :
    ∃ msg, substitute_config baseConfig
      { bitscores := some "1", evalues := some "2" } =
        .error (.invalidParameter msg) :=
  claim_C2_mutual_exclusion baseConfig
    { bitscores := some "1", evalues := some "2" } "1" "2" rfl rfl rfl

/-- C8: whenever an alignment override is supplied and the engine succeeds,
the result has `align.protocol = "existing"` and `align.input_alignment`
equal to the supplied value, independent of the other overrides (in
particular of `seqfile`). -/
theorem claim_C8_alignment_existing (c : Dict) (kw : Kwargs) (c' : Dict)
    (a : String) (ha : kw.alignment = some a)
    (hok : substitute_config c kw = .ok c') :
    getIn c' "align" "protocol" = some (.vstr "existing") ∧
    getIn c' "align" "input_alignment" = some (.vstr a) := by
  obtain ⟨c1, c2, c3, c4, c5, h1, h2, h3, h4, h5, h6⟩ :=
    substitute_config_decompose hok
  have hw1 : getIn c1 "align" "input_alignment" = some (.vstr a) := by
    apply foldUp_write (.vstr a) "align" "input_alignment" (mappedUpdates kw)
      c c1 h1
    · rw [mappedUpdates_targets]
      exact mapTargets_nodup
    · simp [mappedUpdates, ha]
  have hp2 : getIn c2 "align" "protocol" = some (.vstr "existing") :=
    alignmentStep_writes ha h2
  have hw2 : getIn c2 "align" "input_alignment" = some (.vstr a) := by
    rw [alignmentStep_frameIn h2 "align" "input_alignment" (by decide)]
    exact hw1
  constructor
  · rw [thresholdStep_frame h6 "align" "protocol" (by decide) (by decide)
      (by decide) (by decide),
      databaseStep_frameIn h5 "align" "protocol" (by decide) (by decide),
      stagesStep_frameIn h4 "align" "protocol" (by decide),
      regionStep_frameIn h3 "align" "protocol" (by decide)]
    exact hp2
  · rw [thresholdStep_frame h6 "align" "input_alignment" (by decide) (by decide)
      (by decide) (by decide),
      databaseStep_frameIn h5 "align" "input_alignment" (by decide) (by decide),
      stagesStep_frameIn h4 "align" "input_alignment" (by decide),
      regionStep_frameIn h3 "align" "input_alignment" (by decide)]
    exact hw2

/-- Witness for C8: alignment and seqfile both supplied on the concrete base
configuration. -/
theorem claim_C8_witness :
    getIn ((substitute_config baseConfig
        { alignment := some "/path/to.sto", seqfile := some "/path/seq.fa" }).toOption.getD [])
      "align" "protocol" = some (.vstr "existing") ∧
    getIn ((substitute_config baseConfig
        { alignment := some "/path/to.sto", seqfile := some "/path/seq.fa" }).toOption.getD [])
      "align" "input_alignment" = some (.vstr "/path/to.sto") :=
  claim_C8_alignment_existing baseConfig
    { alignment := some "/path/to.sto", seqfile := some "/path/seq.fa" }
    _ "/path/to.sto" rfl rfl

/-- C3: when exactly one of bitscores/evalues is supplied and its string
parses into exactly one numeric token `t` (float if the token contains a
dot, else int), a successful run sets `align.use_bitscores` accordingly,
writes the same scalar into both `align.domain_threshold` and
`align.sequence_threshold`, and does not create a `batch` section (the
top-level `batch` entry is exactly the base one). -/
theorem claim_C3_single_threshold (c : Dict) (kw : Kwargs) (c' : Dict)
    (bs : Bool) (s : String) (t : PyNum)
    (hsel : thresholdSel kw = some (bs, s))
    (hp : parseThresholds s = some [t])
    (hok : substitute_config c kw = .ok c') :
    getIn c' "align" "use_bitscores" = some (.vbool bs) ∧
    getIn c' "align" "domain_threshold" = some t.toValue ∧
    getIn c' "align" "sequence_threshold" = some t.toValue ∧
    dictGet? c' "batch" = dictGet? c "batch" := by
  obtain ⟨c1, c2, c3, c4, c5, h1, h2, h3, h4, h5, h6⟩ :=
    substitute_config_decompose hok
  rw [thresholdStep_of_sel hsel, applyThresholds_of_parse hp] at h6
  obtain ⟨cu, hsu⟩ := thresholdWrite_ok_elim h6
  rw [thresholdWrite_single hsu] at h6
  cases hs2 : setIn cu "align" "domain_threshold" t.toValue with
  | error err => rw [hs2, exceptBind_err] at h6; exact absurd h6 (by simp)
  | ok c6 =>
    rw [hs2, exceptBind_ok] at h6
    refine ⟨?_, ?_, ?_, ?_⟩
    · rw [getIn_setIn_ne h6 _ _ (by decide), getIn_setIn_ne hs2 _ _ (by decide)]
      exact getIn_setIn_self hsu
    · rw [getIn_setIn_ne h6 _ _ (by decide)]
      exact getIn_setIn_self hs2
    · exact getIn_setIn_self h6
    · rw [setIn_top_ne h6 _ (by decide), setIn_top_ne hs2 _ (by decide),
        setIn_top_ne hsu _ (by decide),
        databaseStep_frameTop h5 _ (by decide) (by decide),
        stagesStep_frameTop h4 _ (by decide),
        regionStep_frameTop h3 _ (by decide),
        alignmentStep_frameTop h2 _ (by decide),
        applyMapStep_frameTop h1 _ (by decide)]

/-- Witness for C3: `bitscores="0.5"` on the concrete base configuration. -/
theorem claim_C3_witness :
    getIn ((substitute_config baseConfig
        { bitscores := some "0.5" }).toOption.getD []) "align" "use_bitscores"
      = some (.vbool true) ∧
    getIn ((substitute_config baseConfig
        { bitscores := some "0.5" }).toOption.getD []) "align" "domain_threshold"
      = some (PyNum.pfloat ⟨"0.5"⟩).toValue ∧
    getIn ((substitute_config baseConfig
        { bitscores := some "0.5" }).toOption.getD []) "align" "sequence_threshold"
      = some (PyNum.pfloat ⟨"0.5"⟩).toValue ∧
    dictGet? ((substitute_config baseConfig
        { bitscores := some "0.5" }).toOption.getD []) "batch"
      = dictGet? baseConfig "batch" :=
  claim_C3_single_threshold baseConfig { bitscores := some "0.5" } _ true "0.5"
    (.pfloat ⟨"0.5"⟩) rfl rfl rfl

/-- C1: when exactly one of bitscores/evalues is supplied and its string
parses into two or more numeric tokens, a successful run sets
`align.use_bitscores` (true for bitscores, false for E-values) and replaces
the top-level `batch` section by a dictionary that has exactly one entry per
parsed value `t`, keyed `"_b"`/`"_e"` concatenated with `str(t)`, with
overlay `{align: {domain_threshold: t, sequence_threshold: t}}`; the base
`align.domain_threshold`/`align.sequence_threshold` are unchanged. -/
theorem claim_C1_batch_expansion (c : Dict) (kw : Kwargs) (c' : Dict)
    (bs : Bool) (s : String) (ts : List PyNum)
    (hsel : thresholdSel kw = some (bs, s))
    (hp : parseThresholds s = some ts)
    (hlen : 2 ≤ ts.length)
    (hok : substitute_config c kw = .ok c') :
    getIn c' "align" "use_bitscores" = some (.vbool bs) ∧
    (∃ b, dictGet? c' "batch" = some (.vdict b) ∧
      (∀ t ∈ ts, dictGet? b (subName bs t) = some (mkOverlay t)) ∧
      (∀ p ∈ b, ∃ t ∈ ts, p = (subName bs t, mkOverlay t)) ∧
      (b.map Prod.fst).Nodup) ∧
    getIn c' "align" "domain_threshold" = getIn c "align" "domain_threshold" ∧
    getIn c' "align" "sequence_threshold" = getIn c "align" "sequence_threshold" := by
  obtain ⟨c1, c2, c3, c4, c5, h1, h2, h3, h4, h5, h6⟩ :=
    substitute_config_decompose hok
  rw [thresholdStep_of_sel hsel, applyThresholds_of_parse hp] at h6
  obtain ⟨cu, hsu⟩ := thresholdWrite_ok_elim h6
  cases ts with
  | nil => simp at hlen
  | cons t1 ts' =>
    cases ts' with
    | nil => simp at hlen
    | cons t2 rest =>
      rw [thresholdWrite_multi hsu] at h6
      rw [foldBatch bs (t1 :: t2 :: rest) _ [] (dictGet_dictSet_self cu _ _)] at h6
      have hc' := (Except.ok.inj h6).symm
      have hinj : ∀ x ∈ t1 :: t2 :: rest, ∀ y ∈ t1 :: t2 :: rest,
          subName bs x = subName bs y → x = y := by
        intro x hx y hy hk
        exact subName_inj (parseThresholds_parsedNum hp x hx)
          (parseThresholds_parsedNum hp y hy) hk
      refine ⟨?_, ?_, ?_, ?_⟩
      · rw [hc', getIn_dictSet_outer_ne _ "batch" _ _ _ (by decide),
          getIn_dictSet_outer_ne cu "batch" _ _ _ (by decide)]
        exact getIn_setIn_self hsu
      · refine ⟨(t1 :: t2 :: rest).foldl
            (fun d t => dictSet d (subName bs t) (mkOverlay t)) [],
            ?_, ?_, ?_, ?_⟩
        · rw [hc']
          exact dictGet_dictSet_self _ "batch" _
        · intro t ht
          exact foldIns_get bs (t1 :: t2 :: rest) [] t ht hinj
        · intro p hpmem
          rcases foldIns_entries bs (t1 :: t2 :: rest) [] p hpmem with h0 | h0
          · simp at h0
          · exact h0
        · exact foldIns_nodup bs (t1 :: t2 :: rest) [] (by simp)
      · rw [hc', getIn_dictSet_outer_ne _ "batch" _ _ _ (by decide),
          getIn_dictSet_outer_ne cu "batch" _ _ _ (by decide),
          getIn_setIn_ne hsu _ _ (by decide),
          databaseStep_frameIn h5 _ _ (by decide) (by decide),
          stagesStep_frameIn h4 _ _ (by decide),
          regionStep_frameIn h3 _ _ (by decide),
          alignmentStep_frameIn h2 _ _ (by decide),
          applyMapStep_frameIn h1 _ _ (by decide)]
      · rw [hc', getIn_dictSet_outer_ne _ "batch" _ _ _ (by decide),
          getIn_dictSet_outer_ne cu "batch" _ _ _ (by decide),
          getIn_setIn_ne hsu _ _ (by decide),
          databaseStep_frameIn h5 _ _ (by decide) (by decide),
          stagesStep_frameIn h4 _ _ (by decide),
          regionStep_frameIn h3 _ _ (by decide),
          alignmentStep_frameIn h2 _ _ (by decide),
          applyMapStep_frameIn h1 _ _ (by decide)]

/-- Witness for C1: `evalues="1,0.001,10"` on the concrete base
configuration (keys `_e1`, `_e0.001`, `_e10`). -/
theorem claim_C1_witness :
    getIn ((substitute_config baseConfig
        { evalues := some "1,0.001,10" }).toOption.getD []) "align" "use_bitscores"
      = some (.vbool false) ∧
    (∃ b, dictGet? ((substitute_config baseConfig
        { evalues := some "1,0.001,10" }).toOption.getD []) "batch"
        = some (.vdict b) ∧
      (∀ t ∈ [PyNum.pint 1, PyNum.pfloat ⟨"0.001"⟩, PyNum.pint 10],
        dictGet? b (subName false t) = some (mkOverlay t)) ∧
      (∀ p ∈ b, ∃ t ∈ [PyNum.pint 1, PyNum.pfloat ⟨"0.001"⟩, PyNum.pint 10],
        p = (subName false t, mkOverlay t)) ∧
      (b.map Prod.fst).Nodup) ∧
    getIn ((substitute_config baseConfig
        { evalues := some "1,0.001,10" }).toOption.getD []) "align" "domain_threshold"
      = getIn baseConfig "align" "domain_threshold" ∧
    getIn ((substitute_config baseConfig
        { evalues := some "1,0.001,10" }).toOption.getD []) "align" "sequence_threshold"
      = getIn baseConfig "align" "sequence_threshold" :=
  claim_C1_batch_expansion baseConfig { evalues := some "1,0.001,10" } _ false
    "1,0.001,10" [PyNum.pint 1, PyNum.pfloat ⟨"0.001"⟩, PyNum.pint 10]
    rfl rfl (by decide) rfl

/-- C6: for a supplied database string `d`, the database-resolution step
either finds `d` among the keys of `databases` (then `align.database = d`
and `databases` is unchanged) or registers `d` as `databases.custom` with
`align.database = "custom"`; in both cases no other field is touched by
this step. -/
theorem claim_C6_database_resolution (c : Dict) (kw : Kwargs) (d : String)
    (dbs ad : Dict)
    (hkw : kw.database = some d)
    (hdbs : dictGet? c "databases" = some (.vdict dbs))
    (hal : dictGet? c "align" = some (.vdict ad)) :
    ∃ c', databaseStep c kw = .ok c' ∧
      ((dictHasKey dbs d = true →
          getIn c' "align" "database" = some (.vstr d) ∧
          dictGet? c' "databases" = some (.vdict dbs) ∧
          (∀ o i, ¬(o = "align" ∧ i = "database") → getIn c' o i = getIn c o i) ∧
          (∀ k, k ≠ "align" → dictGet? c' k = dictGet? c k)) ∧
       (dictHasKey dbs d = false →
          getIn c' "align" "database" = some (.vstr "custom") ∧
          getIn c' "databases" "custom" = some (.vstr d) ∧
          (∀ o i, ¬(o = "align" ∧ i = "database") →
            ¬(o = "databases" ∧ i = "custom") → getIn c' o i = getIn c o i) ∧
          (∀ k, k ≠ "align" → k ≠ "databases" →
            dictGet? c' k = dictGet? c k))) := by
  rw [databaseStep_of_some hkw]
  rcases Bool.eq_false_or_eq_true (dictHasKey dbs d) with hk | hk
  · rw [databaseApply_found hdbs hk]
    have hs := setIn_ok_of_dict hal "database" (.vstr d)
    refine ⟨dictSet c "align" (.vdict (dictSet ad "database" (.vstr d))),
      hs, ?_, ?_⟩
    · intro _
      refine ⟨getIn_setIn_self hs, ?_, ?_, ?_⟩
      · rw [setIn_top_ne hs "databases" (by decide)]
        exact hdbs
      · intro o i hne
        exact getIn_setIn_ne hs o i hne
      · intro k hk2
        exact setIn_top_ne hs k hk2
    · intro hfalse
      rw [hk] at hfalse
      exact absurd hfalse (by decide)
  · rw [databaseApply_notfound hdbs hk]
    have hs1 := setIn_ok_of_dict hal "database" (.vstr "custom")
    have hdbs1 : dictGet? (dictSet c "align"
        (.vdict (dictSet ad "database" (.vstr "custom")))) "databases" =
        some (.vdict dbs) := by
      rw [dictGet_dictSet_ne c "align" "databases" _ (by decide)]
      exact hdbs
    have hs2 := setIn_ok_of_dict hdbs1 "custom" (.vstr d)
    refine ⟨dictSet (dictSet c "align"
        (.vdict (dictSet ad "database" (.vstr "custom"))))
        "databases" (.vdict (dictSet dbs "custom" (.vstr d))), ?_, ?_, ?_⟩
    · rw [hs1, exceptBind_ok]
      exact hs2
    · intro htrue
      rw [hk] at htrue
      exact absurd htrue (by decide)
    · intro _
      refine ⟨?_, getIn_setIn_self hs2, ?_, ?_⟩
      · rw [getIn_setIn_ne hs2 _ _ (by decide)]
        exact getIn_setIn_self hs1
      · intro o i hn1 hn2
        rw [getIn_setIn_ne hs2 o i hn2, getIn_setIn_ne hs1 o i hn1]
      · intro k k1 k2
        rw [setIn_top_ne hs2 k k2, setIn_top_ne hs1 k k1]

/-- Witness for C6: `database="uniref90"`, a pre-existing key of
`databases`, on the concrete base configuration. -/
theorem claim_C6_witness :
    ∃ c', databaseStep baseConfig { database := some "uniref90" } = .ok c' ∧
      ((dictHasKey [("uniref90", .vstr "/db/uniref90.fasta")] "uniref90" = true →
          getIn c' "align" "database" = some (.vstr "uniref90") ∧
          dictGet? c' "databases" =
            some (.vdict [("uniref90", .vstr "/db/uniref90.fasta")]) ∧
          (∀ o i, ¬(o = "align" ∧ i = "database") →
            getIn c' o i = getIn baseConfig o i) ∧
          (∀ k, k ≠ "align" → dictGet? c' k = dictGet? baseConfig k)) ∧
       (dictHasKey [("uniref90", .vstr "/db/uniref90.fasta")] "uniref90" = false →
          getIn c' "align" "database" = some (.vstr "custom") ∧
          getIn c' "databases" "custom" = some (.vstr "uniref90") ∧
          (∀ o i, ¬(o = "align" ∧ i = "database") →
            ¬(o = "databases" ∧ i = "custom") →
            getIn c' o i = getIn baseConfig o i) ∧
          (∀ k, k ≠ "align" → k ≠ "databases" →
            dictGet? c' k = dictGet? baseConfig k))) :=
  claim_C6_database_resolution baseConfig { database := some "uniref90" }
    "uniref90" [("uniref90", .vstr "/db/uniref90.fasta")]
    [("protocol", .vstr "standard"), ("domain_threshold", .vint 30),
     ("sequence_threshold", .vint 30)] rfl rfl rfl

/-- C7: when every composite key (alignment, region, stages, database,
bitscores, evalues) is absent, the engine succeeds and the result equals the
base configuration except that each present direct-mapped override is
written verbatim to its destination; all other two-level fields and all
top-level entries not targeted by a present mapping are unchanged. -/
theorem claim_C7_direct_mapping (c : Dict) (kw : Kwargs)
    (hwf : wf c = true)
    (h1 : kw.alignment = none) (h2 : kw.region = none) (h3 : kw.stages = none)
    (h4 : kw.database = none) (h5 : kw.bitscores = none)
    (h6 : kw.evalues = none) :
    ∃ c', substitute_config c kw = .ok c' ∧
      (∀ e ∈ mappedUpdates kw, ∀ v, e.1 = some v →
        getIn c' e.2.1 e.2.2 = some v) ∧
      (∀ o i, (∀ e ∈ mappedUpdates kw, e.1 = none ∨ ¬(e.2.1 = o ∧ e.2.2 = i)) →
        getIn c' o i = getIn c o i) ∧
      (∀ k, (∀ e ∈ mappedUpdates kw, e.1 = none ∨ e.2.1 ≠ k) →
        dictGet? c' k = dictGet? c k) := by
  obtain ⟨c1, hm, hwf1⟩ := applyMapStep_wf kw hwf
  have hsc : substitute_config c kw = .ok c1 := by
    unfold substitute_config
    rw [hm, exceptBind_ok,
      show alignmentStep c1 kw = .ok c1 from by unfold alignmentStep; rw [h1],
      exceptBind_ok, regionStep_of_none h2, exceptBind_ok,
      show stagesStep c1 kw = .ok c1 from by unfold stagesStep; rw [h3],
      exceptBind_ok, databaseStep_of_none h4, exceptBind_ok]
    exact thresholdStep_of_absent h5 h6
  refine ⟨c1, hsc, ?_, ?_, ?_⟩
  · intro e he v hv
    obtain ⟨ov, o0, i0⟩ := e
    have hv' : ov = some v := hv
    subst hv'
    exact foldUp_write v o0 i0 (mappedUpdates kw) c c1 hm
      (by rw [mappedUpdates_targets]; exact mapTargets_nodup) he
  · intro o i hcond
    exact foldUp_frameIn o i _ c c1 hm hcond
  · intro k hcond
    exact foldUp_frameTop k _ c c1 hm hcond

/-- Witness for C7: two direct-mapped overrides supplied, all composite keys
absent, on the concrete base configuration. -/
theorem claim_C7_witness :
    ∃ c', substitute_config baseConfig
        { pfx := some "run1", theta := some ⟨"0.8"⟩ } = .ok c' ∧
      (∀ e ∈ mappedUpdates { pfx := some "run1", theta := some ⟨"0.8"⟩ },
        ∀ v, e.1 = some v → getIn c' e.2.1 e.2.2 = some v) ∧
      (∀ o i, (∀ e ∈ mappedUpdates { pfx := some "run1", theta := some ⟨"0.8"⟩ },
        e.1 = none ∨ ¬(e.2.1 = o ∧ e.2.2 = i)) →
        getIn c' o i = getIn baseConfig o i) ∧
      (∀ k, (∀ e ∈ mappedUpdates { pfx := some "run1", theta := some ⟨"0.8"⟩ },
        e.1 = none ∨ e.2.1 ≠ k) →
        dictGet? c' k = dictGet? baseConfig k) :=
  claim_C7_direct_mapping baseConfig
    { pfx := some "run1", theta := some ⟨"0.8"⟩ } rfl rfl rfl rfl rfl rfl rfl

/-- C4, counterexample to the claim as stated: the claim requires the entire
region string to match the pattern (no surrounding whitespace), so
`region=" 25-341 "` should fail; the code uses `re.search` and succeeds,
writing `[25, 341]`. -/
theorem claim_C4_counterexample :
    ∃ c', substitute_config baseConfig { region := some " 25-341 " } = .ok c' ∧
      getIn c' "global" "region" = some (.vlist [.vint 25, .vint 341]) :=
  ⟨_, rfl, rfl⟩

/-- C4 as amended: for a supplied region string (with no threshold overrides,
which could fail later), the run succeeds if and only if the string contains
a substring matching digits-dash-digits; the leftmost such match supplies
the pair written to `global.region`, and on no match the run fails with the
ParameterValidation error `regionMsg`. -/
theorem claim_C4_amended_region (c : Dict) (kw : Kwargs) (r : String)
    (hwf : wf c = true) (hr : kw.region = some r)
    (hb : kw.bitscores = none) (he : kw.evalues = none) :
    (∀ a b : Nat, searchRegion r = some (a, b) →
      ∃ c', substitute_config c kw = .ok c' ∧
        getIn c' "global" "region" =
          some (.vlist [.vint (a : Int), .vint (b : Int)])) ∧
    (searchRegion r = none →
      substitute_config c kw = .error (.invalidParameter regionMsg)) := by
  obtain ⟨c1, h1, hwf1⟩ := applyMapStep_wf kw hwf
  obtain ⟨c2, h2, hwf2⟩ := alignmentStep_wf kw hwf1
  constructor
  · intro a b hm
    obtain ⟨gd, hg⟩ := wf_section_dict hwf2 (by simp [sectionName] :
      sectionName "global")
    have hs3 := setIn_ok_of_dict hg "region"
      (.vlist [.vint (a : Int), .vint (b : Int)])
    have h3 : regionStep c2 kw = .ok (dictSet c2 "global"
        (.vdict (dictSet gd "region"
          (.vlist [.vint (a : Int), .vint (b : Int)])))) := by
      rw [regionStep_of_some hr, regionApply_of_match hm]
      exact hs3
    have hwf3 : wf (dictSet c2 "global" (.vdict (dictSet gd "region"
        (.vlist [.vint (a : Int), .vint (b : Int)])))) = true :=
      wf_dictSet_vdict hwf2 "global" _
    obtain ⟨c4, h4, hwf4⟩ := stagesStep_wf kw hwf3
    obtain ⟨c5, h5, hwf5⟩ := databaseStep_wf kw hwf4
    refine ⟨c5, ?_, ?_⟩
    · unfold substitute_config
      rw [h1, exceptBind_ok, h2, exceptBind_ok, h3, exceptBind_ok, h4,
        exceptBind_ok, h5, exceptBind_ok]
      exact thresholdStep_of_absent hb he
    · rw [databaseStep_frameIn h5 _ _ (by decide) (by decide),
        stagesStep_frameIn h4 _ _ (by decide)]
      exact getIn_setIn_self hs3
  · intro hm
    unfold substitute_config
    rw [h1, exceptBind_ok, h2, exceptBind_ok, regionStep_err hr hm,
      exceptBind_err]

/-- Witness for the amended C4 at `region="25-341"` on the concrete base
configuration. -/
theorem claim_C4_witness :
    (∀ a b : Nat, searchRegion "25-341" = some (a, b) →
      ∃ c', substitute_config baseConfig { region := some "25-341" } = .ok c' ∧
        getIn c' "global" "region" =
          some (.vlist [.vint (a : Int), .vint (b : Int)])) ∧
    (searchRegion "25-341" = none →
      substitute_config baseConfig { region := some "25-341" } =
        .error (.invalidParameter regionMsg)) :=
  claim_C4_amended_region baseConfig { region := some "25-341" } "25-341"
    rfl rfl rfl rfl

/-- C5: the claim says every ParameterValidation error carries the offending
raw input; in the code the region error message calls `.format(region)` on a
format string with no placeholder, so a failure on `region="abc"` produces
`regionMsg`, which does not contain `"abc"`; the mutual-exclusion message
contains neither threshold string either.  Only the numeric threshold error
interpolates its input.  (The dangling `:` at the end of `regionMsg` and the
discarded `.format(region)` argument show the message was intended to
include the string: the code, not the claim, is at fault.) -/
theorem claim_C5_error_text_missing_input :
    substitute_config baseConfig { region := some "abc" } =
      .error (.invalidParameter regionMsg) ∧
    occursIn "abc" regionMsg = false ∧
    substitute_config baseConfig { bitscores := some "5", evalues := some "7" } =
      .error (.invalidParameter mutualMsg) ∧
    occursIn "5" mutualMsg = false ∧
    occursIn "7" mutualMsg = false ∧
    substitute_config baseConfig { bitscores := some "xx" } =
      .error (.invalidParameter (numericMsg "xx")) ∧
    occursIn "xx" (numericMsg "xx") = true :=
  ⟨rfl, by decide, rfl, by decide, by decide, rfl, by decide⟩

/-- C10, counterexample to the claim as stated: the claim says a
tab-containing threshold token fails numeric parsing, but Python's `int()`
strips surrounding whitespace, so `bitscores="15\t"` succeeds and writes the
integer 15. -/
theorem claim_C10_counterexample :
    ∃ c', substitute_config baseConfig { bitscores := some "15\t" } = .ok c' ∧
      getIn c' "align" "domain_threshold" = some (.vint 15) :=
  ⟨_, rfl, rfl⟩

/-- C10 as amended: every ASCII space anywhere in a threshold or stages
string is removed before splitting on commas (`"1 5"` parses as the integer
15, `"0 . 5"` as the float 0.5, and stages `"a b, c"` becomes
`["ab", "c"]`); tabs are not removed, so a tab between digits fails numeric
parsing (`"1\t5"`), but a leading/trailing tab is accepted because the
numeric constructors strip surrounding whitespace (`"15\t"` parses as 15). -/
theorem claim_C10_amended_space_removal :
    parseThresholds "1 5" = some [.pint 15] ∧
    parseThresholds "0 . 5" = some [.pfloat ⟨"0.5"⟩] ∧
    parseThresholds "1\t5" = none ∧
    parseThresholds "15\t" = some [.pint 15] ∧
    commaTokens "a b, c" = ["ab", "c"] ∧
    (∃ c', substitute_config baseConfig { stages := some "a b, c" } = .ok c' ∧
      dictGet? c' "stages" = some (.vlist [.vstr "ab", .vstr "c"])) :=
  ⟨rfl, rfl, rfl, rfl, rfl, ⟨_, rfl, rfl⟩⟩

end EvApp
